import Mathlib

/-!
Verification of the kangaroo social-feed client (src/script.js) against its
natural-language specification.

The development is a shallow embedding of the parts of `script.js` that the
frozen claims talk about:

* `tsvParser.parse`                         (claim C8)
* `api.enqueue` / `api.processQueue`        (claim C3)
* `api.callAppsScript`                      (claim C7)
* `dataAggregator.getPosts`                 (claims C4, C5, C6, C9, C10)
* `applyOptimisticUpdates`                  (claims C2, C5, C9)
* `core.refreshFeed` (read cycle)           (claims C1, C2, C9)
* `handlers.createPost/addComment/toggleLike/toggleFollow` (claim C1)

Strings of the program are modelled by Lean `String` (character lists where
splitting/trimming must be reasoned about), JS epoch-millisecond timestamps by
`Int`, JS objects used as keyed maps by insertion-ordered association lists.
Presentation-only enrichment fields (display names spread onto comments,
profile-page relationship labels, DOM work) are outside the modelled state.
-/

namespace Kangaroo

/-! ## Character-list utilities (JS `split`, `trim`, `includes`) -/

/-- JS `String.prototype.split(sep)` for a one-character separator.
`split` never returns an empty list: `''.split(c) = ['']`. -/
def jsSplit (sep : Char) : List Char → List (List Char)
  | [] => [[]]
  | c :: rest =>
    match jsSplit sep rest with
    | [] => [[c]]
    | f :: fs => if c = sep then [] :: f :: fs else (c :: f) :: fs

/-- JS `String.prototype.trim`: drop whitespace from both ends. -/
def jsTrim (l : List Char) : List Char :=
  ((l.dropWhile Char.isWhitespace).reverse.dropWhile Char.isWhitespace).reverse

/-- Whether `needle` occurs as a contiguous substring of `hay`
(JS `String.prototype.includes`). -/
def jsIncludes (hay needle : List Char) : Bool :=
  hay.tails.any fun t => needle.isPrefixOf t

/-- JS `toLowerCase`, character by character. -/
def jsToLower (s : String) : String :=
  String.mk (s.data.map Char.toLower)

/-- JS `toUpperCase`, character by character. -/
def jsToUpper (s : String) : String :=
  String.mk (s.data.map Char.toUpper)

/-! ## `tsvParser.parse`

```js
parse(tsvText) {
    if (!tsvText || tsvText.trim() === '') return [];
    const lines = tsvText.split('\n').filter(line => line.trim() !== '');
    if (lines.length === 0) return [];
    const headers = lines[0].split('\t').map(h => h.trim());
    if (headers.length === 0 || headers.every(h => !h)) { ... return []; }
    const data = [];
    for (let i = 1; i < lines.length; i++) {
        const values = lines[i].split('\t');
        if (values.length > headers.length * 2) { continue; }
        const row = {};
        headers.forEach((header, index) => { row[header] = values[index] || ''; });
        data.push(row);
    }
    return data;
}
```
A row record is the insertion-ordered list of `(header, value)` assignments. -/

namespace tsvParser

/-- Row assembly: `row[header] = values[index] || ''` for each header, in
header order. -/
def record (headers : List (List Char)) (values : List (List Char)) :
    List (List Char × List Char) :=
  headers.enum.map fun p => (p.2, values.getD p.1 [])

/-- The non-blank lines of the text: `tsvText.split('\n').filter(l => l.trim() !== '')`.
The leading `!tsvText || tsvText.trim() === ''` guard returns `[]` exactly when
this list is empty, so it is subsumed by the `lines.length === 0` check. -/
def nonblankLines (text : List Char) : List (List Char) :=
  (jsSplit '\n' text).filter fun l => jsTrim l ≠ []

/-- Embedding of `tsvParser.parse`. -/
def parse (text : List Char) : List (List (List Char × List Char)) :=
  match nonblankLines text with
  | [] => []
  | first :: rest =>
    let headers := (jsSplit '\t' first).map jsTrim
    if headers.all (· = []) then []
    else rest.filterMap fun line =>
      let values := jsSplit '\t' line
      if values.length > headers.length * 2 then none
      else some (record headers values)

end tsvParser

/-! ## The write command queue

```js
async enqueue(action, body, method = 'POST') {
    return new Promise((resolve, reject) => {
        this.queue.push({ action, body, method, resolve, reject });
        this.processQueue();
    });
},
async processQueue() {
    if (this.isProcessingQueue || this.queue.length === 0) return;
    this.isProcessingQueue = true;
    const request = this.queue.shift();
    try { const result = await this.callAppsScript(...); request.resolve(result); }
    catch (error) { request.reject(error); }
    finally {
        this.isProcessingQueue = false;
        if (this.queue.length > 0) this.processQueue();
    }
}
```
The event loop is single threaded; the only suspension point is the awaited
`callAppsScript` call.  The queue is modelled as a state machine driven by two
events: an `enq` event (the synchronous part of `enqueue`, which pushes the
request and runs `processQueue` to completion up to its suspension point) and a
`settle` event (the awaited dispatch resolves or rejects, running the
`finally` block which clears the flag and re-runs `processQueue`).
Commands are identified by the order-preserving payloads they carry. -/

namespace api

structure QueueState where
  /-- Corresponds to `this.queue`: requests pushed but not yet shifted. -/
  queue : List Nat
  /-- Corresponds to `this.isProcessingQueue`. -/
  isProcessingQueue : Bool
  /-- Dispatches begun (awaited `callAppsScript` call issued) and not settled. -/
  inFlight : List Nat
  /-- All dispatches, in the order their `callAppsScript` call was issued. -/
  dispatched : List Nat
  /-- All settled dispatches, in settlement order. -/
  completed : List Nat
  deriving Repr, DecidableEq

/-- The synchronous body of `processQueue`: return if the flag is set or the
queue is empty, otherwise set the flag, shift the head and begin dispatching
it. -/
def tryProcess (s : QueueState) : QueueState :=
  if s.isProcessingQueue then s
  else
    match s.queue with
    | [] => s
    | c :: rest =>
      { s with queue := rest, isProcessingQueue := true,
               inFlight := s.inFlight ++ [c], dispatched := s.dispatched ++ [c] }

inductive QEvent where
  | enq (c : Nat)
  | settle
  deriving Repr, DecidableEq

/-- One event-loop step.  `enq c` is `api.enqueue`'s synchronous part;
`settle` is the settlement of the in-flight `callAppsScript` promise followed
by the `finally` block (`isProcessingQueue = false; processQueue()`). -/
def qstep (s : QueueState) : QEvent → QueueState
  | .enq c => tryProcess { s with queue := s.queue ++ [c] }
  | .settle =>
    match s.inFlight with
    | [] => s
    | c :: rest =>
      tryProcess { s with inFlight := rest, completed := s.completed ++ [c],
                          isProcessingQueue := false }

def qinit : QueueState := ⟨[], false, [], [], []⟩

def qrun (evs : List QEvent) : QueueState := evs.foldl qstep qinit

/-- The commands enqueued by a trace, in order. -/
def enqueuedOf (evs : List QEvent) : List Nat :=
  evs.filterMap fun e => match e with | .enq c => some c | .settle => none

end api

/-! ## `api.callAppsScript` (timeout / retry / backoff)

```js
async callAppsScript(action, body, method, retryCount = 0) {
    const controller = new AbortController();
    const timeoutId = setTimeout(() => controller.abort(), 30000);
    try {
        ...
        const response = await fetch(url, options);
        clearTimeout(timeoutId);
        if (!response.ok) throw new Error(`Network error: ${response.status}`);
        const result = await response.json();
        if (result.status === 'error') {
            const error = new Error(result.message);
            ...
            throw error;
        }
        ...
        return result;
    } catch (error) {
        if (retryCount < 2 && (error.name === 'AbortError'
            || (error.message && error.message.includes('HTTP 5'))
            || (error.message && error.message.toLowerCase().includes('network')))) {
            await new Promise(resolve => setTimeout(resolve, 1000 * Math.pow(2, retryCount)));
            return this.callAppsScript(action, body, method, retryCount + 1);
        }
        throw error;
    }
}
```
An attempt's outcome is abstracted as a `WriteOutcome`; `attempt k` is the
outcome of the attempt made with `retryCount = k`. -/

namespace api

/-- The duration passed to the abort timer (`setTimeout(..., 30000)`). -/
def WRITE_TIMEOUT_MS : Nat := 30000

/-- Backoff before the retry that will run with `retryCount + 1`:
`1000 * Math.pow(2, retryCount)`. -/
def retryDelayMs (retryCount : Nat) : Nat := 1000 * 2 ^ retryCount

inductive WriteOutcome where
  /-- The 30s abort timer fired: `fetch` rejects with an `AbortError`. -/
  | timeout
  /-- `!response.ok`: `throw new Error('Network error: ' + status)`. -/
  | httpError (status : Nat)
  /-- Structured failure payload (`result.status === 'error'`):
  `throw new Error(result.message)`. -/
  | structuredError (message : String)
  /-- Success payload: returned to the caller. -/
  | success
  deriving Repr, DecidableEq

/-- Name and message of the `Error` thrown for a failing outcome. -/
def errorOf : WriteOutcome → Option (String × String)
  | .timeout => some ("AbortError", "The operation was aborted.")
  | .httpError status => some ("Error", "Network error: " ++ toString status)
  | .structuredError message => some ("Error", message)
  | .success => none

/-- The error test of the `catch` block, minus the `retryCount < 2` bound. -/
def retriableError (name message : String) : Bool :=
  name = "AbortError"
    || jsIncludes message.data ("HTTP 5".data)
    || jsIncludes (jsToLower message).data ("network".data)

inductive CallResult where
  | ok
  | err (name message : String)
  deriving Repr, DecidableEq

/-- Embedding of `callAppsScript`, started at a given `retryCount`.  Returns
the settled result and the list of backoff delays slept between attempts. -/
def callAppsScript (attempt : Nat → WriteOutcome) (retryCount : Nat) :
    CallResult × List Nat :=
  match errorOf (attempt retryCount) with
  | none => (.ok, [])
  | some (name, message) =>
    if h : retryCount < 2 ∧ retriableError name message then
      let r := callAppsScript attempt (retryCount + 1)
      (r.1, retryDelayMs retryCount :: r.2)
    else (.err name message, [])
termination_by 2 - retryCount
decreasing_by omega

end api

/-! ## Row records of the tabular snapshot

The aggregator reads named columns from the parsed TSV rows (with
`getColumn` header aliasing).  The rows are modelled as typed records holding
exactly the columns `dataAggregator.getPosts` reads; header aliasing is
resolved away.  Epoch-millisecond timestamps stand in for the JS
`new Date(...).getTime()` values. -/

structure AccountRow where
  userID : String
  username : String
  displayName : String
  profilePictureUrl : String := ""
  description : String := ""
  isVerified : String := "FALSE"
  /-- Visibility policy column; the empty string is the missing column. -/
  firePostVisibility : String := ""
  /-- Privacy column (`profileType`, alias `privacy`); empty = missing. -/
  profileType : String := ""
  isAdmin : String := "FALSE"
  deriving Repr, DecidableEq

structure PostRow where
  postID : String
  userID : String
  postContent : String
  timestamp : Int
  story : String := "FALSE"
  deriving Repr, DecidableEq

structure CommentRow where
  commentID : String
  postID : String
  userID : String
  commentText : String
  timestamp : Int
  deriving Repr, DecidableEq

structure LikeRow where
  likeID : String
  postID : String
  userID : String
  deriving Repr, DecidableEq

structure FollowRow where
  followerID : String
  followingID : String
  deriving Repr, DecidableEq

structure BlockRow where
  blockerID : String
  blockedID : String
  deriving Repr, DecidableEq

/-- Ban row; `endDate = none` models the missing/empty end-date column
(a permanent ban).  An unparseable date cell (ignored by the code) is not
modelled. -/
structure BanRow where
  username : String
  reason : String := ""
  endDate : Option Int := none
  deriving Repr, DecidableEq

structure ServRow where
  serverStatus : String
  bannerText : String := ""
  deriving Repr, DecidableEq

structure MessageRow where
  messageID : String
  senderID : String
  recipientID : String
  /-- Base64-encoded content, decoded only for display. -/
  messageContent : String
  timestamp : Int
  isRead : String := "FALSE"
  deriving Repr, DecidableEq

/-- The eleven sheets fetched by `dataAggregator.getPosts`
(`groupLastRead` is fetched but never read afterwards and is omitted;
`photoLibrary` rows are reduced to their url cell). -/
structure Snapshot where
  servInfo : List ServRow := []
  bans : List BanRow := []
  blocks : List BlockRow := []
  accounts : List AccountRow := []
  posts : List PostRow := []
  comments : List CommentRow := []
  likes : List LikeRow := []
  followers : List FollowRow := []
  messages : List MessageRow := []
  photoLibrary : List String := []
  deriving Repr, DecidableEq

/-! ## The optimistic overlay state -/

/-- A pending like/follow override: `{ status, timestamp }`. -/
structure OverrideEntry where
  status : Bool
  timestamp : Int
  deriving Repr, DecidableEq

/-- A locally pending post (`state.localPendingPosts` entry); the
presentation-only fields of the stored object (display name, avatar,
verification badge, story duration/expiry) are elided. -/
structure PendingPost where
  postId : String
  userId : String
  postContent : String
  isStory : Bool := false
  timestamp : Int
  deriving Repr, DecidableEq

/-- A locally pending comment (`state.pendingComments` entry). -/
structure PendingComment where
  postId : String
  userId : String
  commentText : String
  timestamp : Int
  deriving Repr, DecidableEq

/-- The overlay-owned part of `state`.  The JS objects
`pendingOverrides.likes` / `.follows` are insertion-ordered key/value maps,
modelled as association lists with unique keys. -/
structure OverlayState where
  deletedPostIds : List String := []
  deletedCommentIds : List String := []
  localPendingPosts : List PendingPost := []
  pendingComments : List PendingComment := []
  pendingLikes : List (String × OverrideEntry) := []
  pendingFollows : List (String × OverrideEntry) := []
  deriving Repr, DecidableEq

/-! ## Association-list operations with JS-object semantics -/

/-- JS object key lookup. -/
def lookupOv (m : List (String × OverrideEntry)) (k : String) : Option OverrideEntry :=
  (m.find? fun p => p.1 = k).map (·.2)

/-- JS `delete obj[k]`. -/
def removeOv (m : List (String × OverrideEntry)) (k : String) : List (String × OverrideEntry) :=
  m.filter fun p => p.1 ≠ k

/-- JS `obj[k] = v`: overwrite in place if the key exists, else append. -/
def setOv (m : List (String × OverrideEntry)) (k : String) (v : OverrideEntry) :
    List (String × OverrideEntry) :=
  if m.any (fun p => p.1 = k) then m.map (fun p => if p.1 = k then (k, v) else p)
  else m ++ [(k, v)]

/-! ## Helper joins of `dataAggregator.getPosts` -/

/-- Test `String(x || 'FALSE').toUpperCase() === 'TRUE'`. -/
def jsTrue (s : String) : Bool := jsToUpper s = "TRUE"

/-- Membership in `banMap`: some ban row for this (non-empty) username is
permanent (no end date) or has an end date in the future. -/
def isBannedNow (now : Int) (bans : List BanRow) (username : String) : Bool :=
  bans.any fun r =>
    r.username ≠ "" && r.username = username &&
      (match r.endDate with
       | none => true
       | some d => decide (now < d))

/-- Membership in `blockMap[blocker]`. -/
def blocksB (blocks : List BlockRow) (blocker blocked : String) : Bool :=
  blocks.any fun r => r.blockerID = blocker && r.blockedID = blocked

/-- Entries of `followingMap[uid]` (ids the user follows), in row order. -/
def followingOf (followers : List FollowRow) (uid : String) : List String :=
  (followers.filter fun r => r.followerID = uid).map (·.followingID)

/-- Entries of `followersMap[uid]` (ids following the user), in row order. -/
def followersOf (followers : List FollowRow) (uid : String) : List String :=
  (followers.filter fun r => r.followingID = uid).map (·.followerID)

/-- Lookup in `userMap`: built by a `forEach` assignment, so the last
account row with a given id wins. -/
def accountFor (accounts : List AccountRow) (uid : String) : Option AccountRow :=
  accounts.foldl (fun acc r => if r.userID = uid then some r else acc) none

/-- The `profilePrivacy` field of a `userMap` entry:
`String(getColumn(row,'profileType','privacy') || 'public').trim().toLowerCase() === 'private'`. -/
def profilePrivacyOf (r : AccountRow) : String :=
  if (jsTrim r.profileType.data).map Char.toLower = "private".data
  then "private" else "public"

/-- The `postVisibility` field of a `userMap` entry:
`row['firePostVisibility'] || 'Everyone'`. -/
def postVisibilityOf (r : AccountRow) : String :=
  if r.firePostVisibility = "" then "Everyone" else r.firePostVisibility

/-- An entry of `likesByPostMap[pid]`: `{ likeId, userId }`.  The optimistic
push `post.likes.push({ userId })` creates an entry without a `likeId`. -/
structure LikeEntry where
  likeId : Option String := none
  userId : String
  deriving Repr, DecidableEq

/-- Entries of `likesByPostMap[pid]`, in row order. -/
def likesOf (likes : List LikeRow) (pid : String) : List LikeEntry :=
  (likes.filter fun r => r.postID = pid).map fun r => ⟨some r.likeID, r.userID⟩

/-- A denormalized `userMap` entry. -/
structure UserInfo where
  userId : String
  username : String
  displayName : String
  profilePictureUrl : String
  description : String
  isVerified : String
  postVisibility : String
  profilePrivacy : String
  followers : Nat
  following : Nat
  totalLikes : Nat
  isAdmin : Bool
  /-- Whether `banDetails` is non-null (its reason/end-date payload is
  elided: only presence is read by the visibility filter). -/
  banned : Bool
  deriving Repr, DecidableEq

/-- Building one `userMap` entry.  `totalLikes` sums the like counts of the
user's posts as collected by `postsByUserMap`, which skips locally deleted
post ids. -/
def userInfoOf (now : Int) (deletedPostIds : List String) (snap : Snapshot)
    (r : AccountRow) : UserInfo :=
  let ownPosts := snap.posts.filter fun p =>
    decide (p.postID ∉ deletedPostIds ∧ p.userID = r.userID)
  { userId := r.userID
    username := r.username
    displayName := r.displayName
    profilePictureUrl := r.profilePictureUrl
    description := r.description
    isVerified := if r.isVerified = "" then "FALSE" else r.isVerified
    postVisibility := postVisibilityOf r
    profilePrivacy := profilePrivacyOf r
    followers := (followersOf snap.followers r.userID).length
    following := (followingOf snap.followers r.userID).length
    totalLikes := ownPosts.foldl (fun acc p => acc + (likesOf snap.likes p.postID).length) 0
    isAdmin := jsTrue r.isAdmin
    banned := isBannedNow now snap.bans r.username }

/-- Lookup `userMap[uid]`. -/
def userMapLookup (now : Int) (deletedPostIds : List String) (snap : Snapshot)
    (uid : String) : Option UserInfo :=
  (accountFor snap.accounts uid).map (userInfoOf now deletedPostIds snap)

/-! ## The visibility filter and `feedItems` (getPosts lines 270-304) -/

/-- The `canView` computation for a post by `authorId` whose resolved author
row is `a`, evaluated for `viewer`. -/
def canViewB (followers : List FollowRow) (viewer authorId : String)
    (a : AccountRow) : Bool :=
  let isOwn := authorId = viewer
  let followsAuthor := authorId ∈ followingOf followers viewer
  let authorFollowsBack := viewer ∈ followingOf followers authorId
  let areFriends := followsAuthor && authorFollowsBack
  if isOwn then true
  else if profilePrivacyOf a = "private" then areFriends
  else if postVisibilityOf a = "Followers" then followsAuthor
  else if postVisibilityOf a = "Friends" then areFriends
  else true

/-- Whether a server post row passes every exclusion of the feed loop:
not tombstoned, no block in either direction, author resolvable, author not
banned, and `canView`. -/
def passesFeedFilter (now : Int) (st : OverlayState) (snap : Snapshot)
    (viewer : String) (row : PostRow) : Bool :=
  if row.postID ∈ st.deletedPostIds then false
  else if blocksB snap.blocks viewer row.userID
       || blocksB snap.blocks row.userID viewer then false
  else
    match accountFor snap.accounts row.userID with
    | none => false
    | some a =>
      if isBannedNow now snap.bans a.username then false
      else canViewB snap.followers viewer row.userID a

/-- A value of the `feedItems` object.  The story expiry/duration columns it
carries are elided (unused by any claim); `sortTimestamp` duplicates the
creation timestamp as in the source. -/
structure FeedItem where
  postId : String
  authorId : String
  postContent : String
  timestamp : Int
  isStory : Bool
  sortTimestamp : Int
  deriving Repr, DecidableEq

def feedItemOfRow (row : PostRow) : FeedItem :=
  { postId := row.postID, authorId := row.userID, postContent := row.postContent,
    timestamp := row.timestamp, isStory := jsTrue row.story,
    sortTimestamp := row.timestamp }

/-- JS object assignment `feedItems[pid] = item`: a later assignment to an
existing key overwrites the value but keeps the key's original position. -/
def upsertItem (m : List (String × FeedItem)) (k : String) (v : FeedItem) :
    List (String × FeedItem) :=
  if m.any (fun p => p.1 = k) then m.map (fun p => if p.1 = k then (k, v) else p)
  else m ++ [(k, v)]

def hasItemKey (m : List (String × FeedItem)) (k : String) : Bool :=
  m.any fun p => p.1 = k

/-- The `feedItems` object after the server-post loop, as an
insertion-ordered association list. -/
def serverFeedItems (now : Int) (st : OverlayState) (snap : Snapshot)
    (viewer : String) : List (String × FeedItem) :=
  snap.posts.foldl
    (fun m row =>
      if passesFeedFilter now st snap viewer row
      then upsertItem m row.postID (feedItemOfRow row)
      else m)
    []

/-! ## The pending-post merge (getPosts lines 306-337) -/

/-- Pending-post TTL: `const PENDING_TTL = 900000; // 15 min`. -/
def PENDING_TTL : Int := 900000

/-- The duplicate-detection test `existsOnServer`: some already-projected
server post has the same author, the same content, and a timestamp within
`PENDING_TTL`.  `feedValues` is captured before the injection loop, so the
test always runs against the server-only items. -/
def existsOnServer (serverItems : List (String × FeedItem)) (lp : PendingPost) : Bool :=
  serverItems.any fun p =>
    decide (p.2.authorId = lp.userId ∧ p.2.postContent = lp.postContent ∧
      (p.2.timestamp - lp.timestamp).natAbs < 900000)

/-- The injected feed item of an unmatched pending post. -/
def feedItemOfPending (lp : PendingPost) : FeedItem :=
  { postId := lp.postId, authorId := lp.userId, postContent := lp.postContent,
    timestamp := lp.timestamp, isStory := lp.isStory, sortTimestamp := lp.timestamp }

/-- The pending-post merge: drop expired entries, drop entries matched on the
server, inject the rest (unless their key is already present), and return the
updated `feedItems` together with the surviving `localPendingPosts`.
The JS `if (state.localPendingPosts.length > 0)` guard and the
only-save-if-changed assignment are extensionally the identity on the empty /
unchanged cases and are folded into the computation. -/
def mergePendingPosts (now : Int) (pending : List PendingPost)
    (serverItems : List (String × FeedItem)) :
    List (String × FeedItem) × List PendingPost :=
  let validPending := pending.filter fun p => decide (now - p.timestamp < PENDING_TTL)
  let items := validPending.foldl
    (fun m lp =>
      if existsOnServer serverItems lp then m
      else if hasItemKey m lp.postId then m
      else m ++ [(lp.postId, feedItemOfPending lp)])
    serverItems
  (items, validPending.filter fun lp => ¬ existsOnServer serverItems lp)

/-! ## Comment projection and the posts array (getPosts lines 220-228, 339-369) -/

/-- A projected comment.  Server comments carry their row id and post id;
the optimistic `tempComment` object carries an id but no post id, and
injected pending comments carry a post id but no row id — both are modelled
with `Option`.  Author-enrichment fields spread from `userMap` are elided. -/
structure ProjComment where
  commentId : Option String
  postId : Option String
  userId : String
  commentText : String
  timestamp : Int
  deriving Repr, DecidableEq

/-- Entries of `commentsByPostMap[pid]`: non-tombstoned comment rows of the
post, in row order. -/
def commentsOfPost (deletedCommentIds : List String) (comments : List CommentRow)
    (pid : String) : List ProjComment :=
  (comments.filter fun c => decide (c.commentID ∉ deletedCommentIds ∧ c.postID = pid)).map
    fun c => ⟨some c.commentID, some c.postID, c.userID, c.commentText, c.timestamp⟩

/-- A projected post: the spread `{ ...author, ...item, comments, likes }`.
The author's `userMap` fields are kept as one optional payload (`undefined`
spreads to nothing when the author is unknown). -/
structure ProjPost where
  postId : String
  authorId : String
  author : Option UserInfo
  postContent : String
  timestamp : Int
  isStory : Bool
  sortTimestamp : Int
  comments : List ProjComment
  likes : List LikeEntry
  deriving Repr, DecidableEq

/-- Assembly of one entry of the `posts` array: block-filtered server
comments, then the unmatched pending comments of the post (matched by author
id and text against the block-filtered server comments), then the post's
likes (not block-filtered). -/
def assemblePost (now : Int) (st : OverlayState) (snap : Snapshot)
    (viewer : String) (item : FeedItem) : ProjPost :=
  let serverComments := (commentsOfPost st.deletedCommentIds snap.comments item.postId).filter
    fun c => decide (¬ (blocksB snap.blocks viewer c.userId = true ∨
                        blocksB snap.blocks c.userId viewer = true))
  let pendingForPost := st.pendingComments.filter fun pc => decide (pc.postId = item.postId)
  let uniquePending := pendingForPost.filter fun pc =>
    decide (¬ ∃ sc ∈ serverComments, sc.userId = pc.userId ∧ sc.commentText = pc.commentText)
  { postId := item.postId
    authorId := item.authorId
    author := userMapLookup now st.deletedPostIds snap item.authorId
    postContent := item.postContent
    timestamp := item.timestamp
    isStory := item.isStory
    sortTimestamp := item.sortTimestamp
    comments := serverComments ++
      uniquePending.map fun pc => ⟨none, some pc.postId, pc.userId, pc.commentText, pc.timestamp⟩
    likes := likesOf snap.likes item.postId }

/-- The pending-comment pruning that runs after the posts array is built:
keep an entry only if no non-tombstoned server comment matches it by author
id, text and post id (note: no timestamp tolerance) and it is younger than
5 minutes. -/
def prunePendingComments (now : Int) (st : OverlayState) (snap : Snapshot) :
    List PendingComment :=
  st.pendingComments.filter fun pc =>
    decide (¬ (∃ sc ∈ snap.comments, sc.commentID ∉ st.deletedCommentIds ∧
                sc.userID = pc.userId ∧ sc.commentText = pc.commentText ∧
                sc.postID = pc.postId) ∧
            now - pc.timestamp < 300000)

/-- Stable insertion for a descending sort by an integer key: an element is
placed before the first strictly smaller key, after equal keys. -/
def insertByDesc (key : ProjPost → Int) (x : ProjPost) : List ProjPost → List ProjPost
  | [] => [x]
  | y :: ys => if key y < key x then x :: y :: ys else y :: insertByDesc key x ys

/-- Stable descending sort, modelling
`posts.sort((a, b) => new Date(b.sortTimestamp) - new Date(a.sortTimestamp))`. -/
def sortByDesc (key : ProjPost → Int) (l : List ProjPost) : List ProjPost :=
  l.foldr (insertByDesc key) []

/-! ## Conversation aggregation (getPosts lines 371-414) -/

structure ConvoMessage where
  messageId : String
  senderId : String
  /-- Decoded content (or the decode-failure placeholder). -/
  messageContent : String
  timestamp : Int
  isRead : String
  senderName : Option String
  deriving Repr, DecidableEq

structure Conversation where
  otherUserId : String
  otherUser : Option UserInfo
  lastMessage : String
  /-- Modelled value of `c.timestamp`, whose initial `''` coerces to epoch 0
  in the `new Date(ts) > new Date(c.timestamp || 0)` comparison. -/
  lastTimestamp : Int
  unreadCount : Nat
  messages : List ConvoMessage
  deriving Repr, DecidableEq

def emptyConversation (otherUser : Option UserInfo) (otherUserId : String) : Conversation :=
  ⟨otherUserId, otherUser, "", 0, 0, []⟩

def updateConvo (m : List (String × Conversation)) (k : String)
    (f : Conversation → Conversation) : List (String × Conversation) :=
  m.map fun p => if p.1 = k then (k, f p.2) else p

/-- The first message pass: group the viewer's direct messages by
counterpart, skipping blocked counterparts and the empty counterpart id
(`if (convoId && otherUser)` — an empty-string id is falsy). -/
def groupMessages (decode : String → Option String) (now : Int)
    (deletedPostIds : List String) (snap : Snapshot) (viewer : String) :
    List (String × Conversation) :=
  snap.messages.foldl
    (fun m row =>
      if row.senderID = viewer ∨ row.recipientID = viewer then
        let otherId := if row.senderID = viewer then row.recipientID else row.senderID
        if otherId ≠ "" ∧
            ¬ (blocksB snap.blocks viewer otherId = true ∨
               blocksB snap.blocks otherId viewer = true) then
          let decoded := (decode row.messageContent).getD "Error decoding."
          let m := if m.any (fun p => p.1 = otherId) then m
                   else m ++ [(otherId,
                     emptyConversation (userMapLookup now deletedPostIds snap otherId) otherId)]
          updateConvo m otherId fun c =>
            let pushed : Conversation := { c with messages := c.messages ++
              [⟨row.messageID, row.senderID, decoded, row.timestamp, row.isRead,
                (userMapLookup now deletedPostIds snap row.senderID).map (·.displayName)⟩] }
            if pushed.lastTimestamp < row.timestamp then
              { pushed with
                lastMessage := if row.senderID = viewer then "You: " ++ decoded else decoded,
                lastTimestamp := row.timestamp }
            else pushed
        else m
      else m)
    []

/-- The second message pass: count unread incoming messages per existing
conversation. -/
def countUnread (snap : Snapshot) (viewer : String)
    (m : List (String × Conversation)) : List (String × Conversation) :=
  snap.messages.foldl
    (fun m row =>
      if row.senderID ≠ viewer ∧ row.recipientID = viewer ∧ row.isRead = "FALSE" then
        updateConvo m row.senderID fun c => { c with unreadCount := c.unreadCount + 1 }
      else m)
    m

/-- Stable insertion for the conversations sort (descending timestamps). -/
def insertConvoByDesc (x : Conversation) : List Conversation → List Conversation
  | [] => [x]
  | y :: ys =>
    if y.lastTimestamp < x.lastTimestamp then x :: y :: ys
    else y :: insertConvoByDesc x ys

def buildConversations (decode : String → Option String) (now : Int)
    (deletedPostIds : List String) (snap : Snapshot) (viewer : String) :
    List Conversation :=
  ((countUnread snap viewer
      (groupMessages decode now deletedPostIds snap viewer)).map (·.2)).foldr
    insertConvoByDesc []

/-! ## `dataAggregator.getPosts` -/

/-- An entry of `blockedUsersList`. -/
structure BlockedLite where
  userId : String
  displayName : String
  profilePictureUrl : String
  deriving Repr, DecidableEq

/-- JS `Set` built by insertions: first occurrence order, duplicates dropped. -/
def firstDedup (l : List String) : List String :=
  l.foldl (fun acc x => if x ∈ acc then acc else acc ++ [x]) []

/-- The `currentUserData` field: the outage sentinel `{ isSuspended: 'OUTAGE' }`,
`null` (no account row), or a `userMap` entry. -/
inductive CUData where
  | outageMarker
  | missing
  | info (u : UserInfo)
  deriving Repr, DecidableEq

/-- The object returned by `getPosts`.  `photoLibrary` is `none` for the
outage sentinel, whose object literal has no such field. -/
structure ProjResult where
  posts : List ProjPost
  conversations : List Conversation
  currentUserFollowingList : List String
  currentUserFollowersList : List String
  blockedUsersList : List BlockedLite
  currentUserData : CUData
  bannerText : String
  photoLibrary : Option (List String)
  deriving Repr, DecidableEq

/-- The early-return outage object. -/
def outageSentinel (bannerText : String) : ProjResult :=
  { posts := [], conversations := [], currentUserFollowingList := [],
    currentUserFollowersList := [], blockedUsersList := [],
    currentUserData := .outageMarker, bannerText := bannerText,
    photoLibrary := none }

/-- The projection body after the outage gate. -/
def normalProjection (decode : String → Option String) (now : Int)
    (st : OverlayState) (snap : Snapshot) (viewer : String)
    (bannerText : String) : ProjResult × OverlayState :=
  let serverItems := serverFeedItems now st snap viewer
  let merged := mergePendingPosts now st.localPendingPosts serverItems
  let posts := merged.1.map fun p => assemblePost now st snap viewer p.2
  let blockedIds := firstDedup ((snap.blocks.filter
    fun r => r.blockerID = viewer).map (·.blockedID))
  ({ posts := sortByDesc (·.sortTimestamp) posts,
     conversations := buildConversations decode now st.deletedPostIds snap viewer,
     currentUserFollowingList := followingOf snap.followers viewer,
     currentUserFollowersList := followersOf snap.followers viewer,
     blockedUsersList := blockedIds.filterMap fun uid =>
       (userMapLookup now st.deletedPostIds snap uid).map fun u =>
         ⟨uid, u.displayName, u.profilePictureUrl⟩,
     currentUserData :=
       match userMapLookup now st.deletedPostIds snap viewer with
       | none => .missing
       | some u => .info u,
     bannerText := bannerText,
     photoLibrary := some (snap.photoLibrary.filter fun u =>
       ("http".data).isPrefixOf u.data) },
   { st with localPendingPosts := merged.2,
             pendingComments := prunePendingComments now st snap })

/-- Embedding of `dataAggregator.getPosts`: the outage gate, then the normal
projection.  Returns the result object together with the overlay state after
the merge's pruning side effects.  Note the exemption lookup uses
`accounts.find(...)` (first matching row), unlike `userMap` (last wins). -/
def getPosts (decode : String → Option String) (now : Int) (st : OverlayState)
    (snap : Snapshot) (viewer : String) : ProjResult × OverlayState :=
  let bannerText := match snap.servInfo with | [] => "" | r :: _ => r.bannerText
  let isOutage :=
    match snap.servInfo with
    | [] => false
    | r :: _ => jsToLower r.serverStatus = "outage"
  let isCurrentUserOutageExempt :=
    match snap.accounts.find? (fun r => r.userID = viewer) with
    | none => false
    | some r => jsTrue r.isAdmin
  if isOutage && !isCurrentUserOutageExempt then
    (outageSentinel bannerText, st)
  else normalProjection decode now st snap viewer bannerText

/-! ## `applyOptimisticUpdates`

```js
const applyOptimisticUpdates = (posts) => {
    const now = Date.now();
    const OVERRIDE_TIMEOUT = 600000;          // 10 minutes
    // expired entries deleted from both override maps
    posts.forEach(post => { ... like override reconcile ... });
    for (const userId in followOverrides) { ... follow override reconcile ... }
    if (state.profileUser) { ... relationship label ... }   // presentation only
};
```
The `forEach`/`for-in` loops mutate the shared override maps while iterating;
they are modelled as folds threading the maps.  The profile-page relationship
label is presentation-only and outside the modelled state. -/

/-- Override TTL: `const OVERRIDE_TIMEOUT = 600000;`. -/
def OVERRIDE_TIMEOUT : Int := 600000

/-- The like-override reconcile for a single post against the override map:
returns the (possibly forced) post and the updated map. -/
def applyLikeOverride (viewer : String) (m : List (String × OverrideEntry))
    (post : ProjPost) : ProjPost × List (String × OverrideEntry) :=
  match lookupOv m post.postId with
  | none => (post, m)
  | some ov =>
    let hasLike := post.likes.any fun l => l.userId = viewer
    if ov.status ∧ hasLike then (post, removeOv m post.postId)
    else if ¬ ov.status ∧ ¬ hasLike then (post, removeOv m post.postId)
    else if ov.status then
      ({ post with likes := post.likes ++ [{ userId := viewer }] }, m)
    else
      ({ post with likes := post.likes.filter fun l => l.userId ≠ viewer }, m)

/-- The follow-override reconcile for a single map entry against the current
following list: returns the updated list and whether the entry survives. -/
def applyFollowOverride (fl : List String) (uid : String) (ov : OverrideEntry) :
    List String × Bool :=
  let isFollowing := uid ∈ fl
  if ov.status ∧ isFollowing then (fl, false)
  else if ¬ ov.status ∧ ¬ isFollowing then (fl, false)
  else if ov.status then ((if uid ∈ fl then fl else fl ++ [uid]), true)
  else (fl.filter (· ≠ uid), true)

/-- The `posts.forEach` loop of the like reconcile, threading the override
map through the in-place mutations. -/
def likesPassCore (viewer : String) (posts : List ProjPost)
    (m : List (String × OverrideEntry)) :
    List ProjPost × List (String × OverrideEntry) :=
  posts.foldl
    (fun (acc : List ProjPost × List (String × OverrideEntry)) post =>
      let r := applyLikeOverride viewer acc.2 post
      (acc.1 ++ [r.1], r.2))
    ([], m)

/-- The `for (const userId in followOverrides)` loop, threading the
following list and collecting the entries that survive. -/
def followsPassCore (followingList : List String)
    (entries : List (String × OverrideEntry)) :
    List String × List (String × OverrideEntry) :=
  entries.foldl
    (fun (acc : List String × List (String × OverrideEntry)) e =>
      let r := applyFollowOverride acc.1 e.1 e.2
      (r.1, if r.2 then acc.2 ++ [e] else acc.2))
    (followingList, [])

/-- Embedding of `applyOptimisticUpdates`: expire overrides older than
10 minutes, reconcile like overrides against the projected posts, reconcile
follow overrides against the given following list.  Returns the updated
posts, following list and overlay. -/
def applyOptimisticUpdates (now : Int) (viewer : String) (posts : List ProjPost)
    (followingList : List String) (st : OverlayState) :
    List ProjPost × List String × OverlayState :=
  let likes0 := st.pendingLikes.filter fun e => decide (¬ (now - e.2.timestamp > OVERRIDE_TIMEOUT))
  let follows0 := st.pendingFollows.filter fun e => decide (¬ (now - e.2.timestamp > OVERRIDE_TIMEOUT))
  let likesPass := likesPassCore viewer posts likes0
  let followsPass := followsPassCore followingList follows0
  (likesPass.1, followsPass.1,
   { st with pendingLikes := likesPass.2, pendingFollows := followsPass.2 })

/-! ## The read cycle (`core.refreshFeed`, lines 1774-1828)

```js
const [postsAndConvosResult, ...] = await Promise.all([api.call('getPosts', ...), ...]);
const { posts = [], conversations = [], currentUserFollowingList = [], ... } = postsAndConvosResult;
if (currentUserData) {
    if (currentUserData.isSuspended === 'OUTAGE') { return core.navigateTo('outage'); }
    if (currentUserData.banDetails) { ... return core.navigateTo('suspended'); }
    state.currentUser = currentUserData; ...
}
applyOptimisticUpdates(posts);                         // line 1804
let combinedPosts = [...posts];
if (state.localPendingPosts && state.localPendingPosts.length > 0) {
    const postIdsInFeed = new Set(posts.map(p => p.postId));
    const missingPending = state.localPendingPosts.filter(lp => !postIdsInFeed.has(lp.postId));
    combinedPosts = [...missingPending, ...combinedPosts];
}
state.posts = combinedPosts;
state.conversations = conversations;
state.currentUserFollowingList = currentUserFollowingList;   // line 1817
...
```
Note the ordering: `applyOptimisticUpdates` runs at line 1804, reading and
writing `state.currentUserFollowingList` — which still holds the value from
before this refresh — and only afterwards, at line 1817, is
`state.currentUserFollowingList` overwritten with the freshly projected
`currentUserFollowingList`, discarding whatever the follow-override pass just
forced into it. -/

/-- The feed-relevant part of the mutable `state` singleton. -/
structure AppState where
  posts : List ProjPost
  currentUserFollowingList : List String
  currentUserFollowersList : List String
  overlay : OverlayState
  deriving Repr, DecidableEq

/-- A `missingPending` entry spliced into `combinedPosts`: the raw pending
object (which has `userId` but no `authorId`/`sortTimestamp` field; those are
filled from its own fields here, and its presentation fields are elided). -/
def projPostOfPending (lp : PendingPost) : ProjPost :=
  { postId := lp.postId, authorId := lp.userId, author := none,
    postContent := lp.postContent, timestamp := lp.timestamp,
    isStory := lp.isStory, sortTimestamp := lp.timestamp,
    comments := [], likes := [] }

inductive CycleResult where
  /-- `core.navigateTo('outage')`: the feed state is not updated, but the
  overlay pruning performed inside `getPosts` has already happened. -/
  | outage (st : OverlayState)
  /-- Ban page (`navigateTo('suspended')`). -/
  | suspended (st : OverlayState)
  /-- Normal completion with the updated feed state. -/
  | ok (s : AppState)
  deriving Repr, DecidableEq

/-- Embedding of one `core.refreshFeed` cycle over a fetched snapshot. -/
def readCycle (decode : String → Option String) (now : Int) (snap : Snapshot)
    (viewer : String) (s : AppState) : CycleResult :=
  let gp := getPosts decode now s.overlay snap viewer
  let res := gp.1
  let st1 := gp.2
  match res.currentUserData with
  | .outageMarker => .outage st1
  | .info u =>
    if u.banned then .suspended st1
    else
      let ap := applyOptimisticUpdates now viewer res.posts s.currentUserFollowingList st1
      let combined :=
        ((st1.localPendingPosts.filter fun lp =>
            decide (lp.postId ∉ res.posts.map (·.postId))).map projPostOfPending)
          ++ ap.1
      .ok { posts := combined,
            currentUserFollowingList := res.currentUserFollowingList,
            currentUserFollowersList := res.currentUserFollowersList,
            overlay := ap.2.2 }
  | .missing =>
    let ap := applyOptimisticUpdates now viewer res.posts s.currentUserFollowingList st1
    let combined :=
      ((st1.localPendingPosts.filter fun lp =>
          decide (lp.postId ∉ res.posts.map (·.postId))).map projPostOfPending)
        ++ ap.1
    .ok { posts := combined,
          currentUserFollowingList := res.currentUserFollowingList,
          currentUserFollowersList := res.currentUserFollowersList,
          overlay := ap.2.2 }

/-! ## Optimistic write handlers (`handlers.createPost/addComment/toggleLike/toggleFollow`)

Each flow is the synchronous optimistic mutation followed by the handler's
reaction to the settled write, driven by a `writeFails` flag.  DOM work,
alerts and error banners are outside the modelled state. -/

namespace handlers

/-- Embedding of the non-editing branch of `handlers.createPost`.  The
optimistic part pushes the `temp_`-id post onto `state.localPendingPosts` and
`state.posts`.  The subsequent `api.call('createPost', ...)` (line 1348) is
dispatched *without* `await`: the surrounding `try/catch` cannot observe the
write's failure, so the handler has no failure branch at all — the state
after a failed write equals the state after the optimistic apply. -/
def createPost (now : Int) (viewer content : String) (s : AppState) : AppState :=
  let pending : PendingPost :=
    { postId := "temp_" ++ toString now, userId := viewer,
      postContent := content, isStory := false, timestamp := now }
  let newPost : ProjPost :=
    { postId := pending.postId, authorId := viewer, author := none,
      postContent := content, timestamp := now, isStory := false,
      sortTimestamp := now, comments := [], likes := [] }
  { s with posts := newPost :: s.posts,
           overlay := { s.overlay with
             localPendingPosts := pending :: s.overlay.localPendingPosts } }

/-- Embedding of `handlers.toggleLike`: optimistic override + like mutation;
on write failure, the override entry is deleted and the like mutation is
inverted.  (The source mutates the first post object found by id; with
distinct post ids this equals mapping over all entries of that id.) -/
def toggleLike (now : Int) (viewer pid : String) (writeFails : Bool)
    (s : AppState) : AppState :=
  match s.posts.find? (fun p => p.postId = pid) with
  | none => s
  | some post =>
    let isLiked := post.likes.any fun l => l.userId = viewer
    let newStatus := ¬ isLiked
    let applied : AppState :=
      { s with
        overlay := { s.overlay with
          pendingLikes := setOv s.overlay.pendingLikes pid ⟨newStatus, now⟩ },
        posts := s.posts.map fun p =>
          if p.postId = pid then
            if newStatus then { p with likes := p.likes ++ [{ userId := viewer }] }
            else { p with likes := p.likes.filter fun l => l.userId ≠ viewer }
          else p }
    if ¬ writeFails then applied
    else
      { applied with
        overlay := { applied.overlay with
          pendingLikes := removeOv applied.overlay.pendingLikes pid },
        posts := applied.posts.map fun p =>
          if p.postId = pid then
            if ¬ newStatus then { p with likes := p.likes ++ [{ userId := viewer }] }
            else { p with likes := p.likes.filter fun l => l.userId ≠ viewer }
          else p }

/-- Embedding of `handlers.toggleFollow`: optimistic following-list mutation
and override entry; on write failure, the override entry is deleted and the
list mutation inverted.  (Button state and profile-page relationship labels
are presentation-only.) -/
def toggleFollow (now : Int) (followingId : String) (writeFails : Bool)
    (s : AppState) : AppState :=
  let isFollowing := followingId ∈ s.currentUserFollowingList
  let newStatus := ¬ isFollowing
  let fl1 :=
    if newStatus then
      if followingId ∈ s.currentUserFollowingList then s.currentUserFollowingList
      else s.currentUserFollowingList ++ [followingId]
    else s.currentUserFollowingList.filter (· ≠ followingId)
  let applied : AppState :=
    { s with currentUserFollowingList := fl1,
             overlay := { s.overlay with
               pendingFollows := setOv s.overlay.pendingFollows followingId
                 ⟨newStatus, now⟩ } }
  if ¬ writeFails then applied
  else
    { applied with
      currentUserFollowingList :=
        if ¬ newStatus then applied.currentUserFollowingList ++ [followingId]
        else applied.currentUserFollowingList.filter (· ≠ followingId),
      overlay := { applied.overlay with
        pendingFollows := removeOv applied.overlay.pendingFollows followingId } }

/-- Embedding of `handlers.addComment`: if the post is present, push the
`temp_`-id comment onto its comment list and push a pending-comment entry;
on write failure, remove the temp comment from the post's list — but (as in
the source) leave the `state.pendingComments` entry in place. -/
def addComment (now : Int) (viewer pid text : String) (writeFails : Bool)
    (s : AppState) : AppState :=
  let tempId := "temp_" ++ toString now
  let tempComment : ProjComment :=
    { commentId := some tempId, postId := none, userId := viewer,
      commentText := text, timestamp := now }
  let applied : AppState :=
    if s.posts.any (fun p => p.postId = pid) then
      { s with
        posts := s.posts.map fun p =>
          if p.postId = pid then { p with comments := p.comments ++ [tempComment] } else p,
        overlay := { s.overlay with
          pendingComments := s.overlay.pendingComments ++
            [{ postId := pid, userId := viewer, commentText := text, timestamp := now }] } }
    else s
  if ¬ writeFails then applied
  else
    { applied with
      posts := applied.posts.map fun p =>
        if p.postId = pid then
          { p with comments := p.comments.filter fun c => c.commentId ≠ some tempId }
        else p }

end handlers

/-! # Supporting lemmas -/

theorem jsSplit_ne_nil (sep : Char) (l : List Char) : jsSplit sep l ≠ [] := by
  cases l with
  | nil => simp [jsSplit]
  | cons c rest =>
    simp only [jsSplit]
    rcases h : jsSplit sep rest with _ | ⟨f, fs⟩
    · simp
    · by_cases hc : c = sep <;> simp [hc]

theorem all_ws_of_jsSplit_all_ws :
    ∀ l : List Char,
      ((jsSplit '\t' l).all fun f => f.all Char.isWhitespace) = true →
      l.all Char.isWhitespace = true := by
  intro l
  induction l with
  | nil => intro _; rfl
  | cons c rest ih =>
    intro h
    rcases hs : jsSplit '\t' rest with _ | ⟨f, fs⟩
    · exact absurd hs (jsSplit_ne_nil _ _)
    · by_cases hc : c = '\t'
      · have hsplit : jsSplit '\t' (c :: rest) = [] :: f :: fs := by
          simp [jsSplit, hs, hc]
        rw [hsplit] at h
        simp only [List.all_cons, Bool.and_eq_true] at h ⊢
        refine ⟨by rw [hc]; decide, ih ?_⟩
        rw [hs]
        simp only [List.all_cons, Bool.and_eq_true]
        exact ⟨h.2.1, h.2.2⟩
      · have hsplit : jsSplit '\t' (c :: rest) = (c :: f) :: fs := by
          simp [jsSplit, hs, hc]
        rw [hsplit] at h
        simp only [List.all_cons, Bool.and_eq_true] at h ⊢
        refine ⟨h.1.1, ih ?_⟩
        rw [hs]
        simp only [List.all_cons, Bool.and_eq_true]
        exact ⟨h.1.2, h.2⟩

theorem jsTrim_eq_nil_of_all_ws (l : List Char)
    (h : l.all Char.isWhitespace = true) : jsTrim l = [] := by
  have h1 : l.dropWhile Char.isWhitespace = [] := by
    rw [List.dropWhile_eq_nil_iff]
    intro x hx
    exact List.all_eq_true.mp h x hx
  simp [jsTrim, h1]

theorem all_ws_of_jsTrim_eq_nil (l : List Char) (h : jsTrim l = []) :
    l.all Char.isWhitespace = true := by
  unfold jsTrim at h
  rw [List.reverse_eq_nil_iff, List.dropWhile_eq_nil_iff] at h
  rw [List.all_eq_true]
  intro x hx
  have hx2 : x ∈ l.takeWhile Char.isWhitespace ++ l.dropWhile Char.isWhitespace := by
    rw [List.takeWhile_append_dropWhile]
    exact hx
  rcases List.mem_append.mp hx2 with h3 | h3
  · exact List.mem_takeWhile_imp h3
  · exact h x (List.mem_reverse.mpr h3)

theorem filterMap_skip_eq_map_filter {α β : Type} (P : α → Prop) [DecidablePred P]
    (f : α → β) (l : List α) :
    (l.filterMap fun x => if P x then none else some (f x)) =
      (l.filter fun x => decide (¬ P x)).map f := by
  induction l with
  | nil => rfl
  | cons a t ih =>
    by_cases h : P a <;>
      simp [List.filterMap_cons, List.filter_cons, h, ih]

/-! ## Feed-merge lemmas (claims C1, C4, C5, C6, C9) -/

/-- Keys of a `feedItems` association list. -/
def itemKeys (m : List (String × FeedItem)) : List String := m.map (·.1)

/-- Overwriting an existing key keeps the key list; a fresh key is appended. -/
theorem itemKeys_upsert (m : List (String × FeedItem)) (k : String) (v : FeedItem) :
    itemKeys (upsertItem m k v) =
      if m.any (fun p => p.1 = k) then itemKeys m else itemKeys m ++ [k] := by
  unfold upsertItem itemKeys
  by_cases h : m.any (fun p => p.1 = k) = true
  · rw [if_pos h, if_pos h, List.map_map]
    apply List.map_congr_left
    intro p _
    by_cases hp : p.1 = k
    · simp [hp]
    · simp [hp]
  · rw [if_neg h, if_neg h]
    simp

theorem mem_itemKeys_upsert (m : List (String × FeedItem)) (k : String)
    (v : FeedItem) (k' : String) :
    k' ∈ itemKeys (upsertItem m k v) ↔ k' ∈ itemKeys m ∨ k' = k := by
  rw [itemKeys_upsert]
  by_cases h : m.any (fun p => p.1 = k) = true
  · rw [if_pos h]
    rw [List.any_eq_true] at h
    obtain ⟨e, he, hek⟩ := h
    simp only [decide_eq_true_eq] at hek
    constructor
    · exact Or.inl
    · rintro (hk | rfl)
      · exact hk
      · exact hek ▸ List.mem_map_of_mem _ he
  · rw [if_neg h]
    simp [or_comm]

theorem nodup_itemKeys_upsert (m : List (String × FeedItem)) (k : String)
    (v : FeedItem) (h : (itemKeys m).Nodup) : (itemKeys (upsertItem m k v)).Nodup := by
  rw [itemKeys_upsert]
  by_cases hk : m.any (fun p => p.1 = k) = true
  · rw [if_pos hk]; exact h
  · rw [if_neg hk]
    rw [List.nodup_append]
    refine ⟨h, List.nodup_singleton k, ?_⟩
    intro a ha hb
    rw [List.mem_singleton] at hb
    subst hb
    rw [List.any_eq_true] at hk
    unfold itemKeys at ha
    rw [List.mem_map] at ha
    obtain ⟨e, he, hek⟩ := ha
    exact hk ⟨e, he, by simp [hek]⟩

/-- Entry/value consistency: every stored item carries its key as `postId`. -/
def ConsistentItems (m : List (String × FeedItem)) : Prop :=
  ∀ e ∈ m, e.2.postId = e.1

theorem consistent_upsert (m : List (String × FeedItem)) (k : String) (v : FeedItem)
    (h : ConsistentItems m) (hv : v.postId = k) : ConsistentItems (upsertItem m k v) := by
  unfold upsertItem
  by_cases hk : m.any (fun p => p.1 = k) = true
  · rw [if_pos hk]
    intro e he
    rw [List.mem_map] at he
    obtain ⟨p, hp, hpe⟩ := he
    by_cases hp1 : p.1 = k
    · rw [← hpe]; simp [hp1, hv]
    · rw [← hpe]; simp only [if_neg hp1]; exact h p hp
  · rw [if_neg hk]
    intro e he
    rcases List.mem_append.mp he with he | he
    · exact h e he
    · rw [List.mem_singleton] at he
      subst he
      exact hv

/-- Membership of a key in the feed-items fold. -/
theorem mem_itemKeys_feedFold (now : Int) (st : OverlayState) (snap : Snapshot)
    (viewer : String) :
    ∀ (rows : List PostRow) (m : List (String × FeedItem)) (pid : String),
      (pid ∈ itemKeys (rows.foldl
          (fun m row =>
            if passesFeedFilter now st snap viewer row
            then upsertItem m row.postID (feedItemOfRow row) else m) m)) ↔
        (pid ∈ itemKeys m ∨
          ∃ row ∈ rows, row.postID = pid ∧
            passesFeedFilter now st snap viewer row = true) := by
  intro rows
  induction rows with
  | nil => intro m pid; simp
  | cons row rest ih =>
    intro m pid
    simp only [List.foldl_cons]
    by_cases hp : passesFeedFilter now st snap viewer row = true
    · rw [if_pos hp, ih, mem_itemKeys_upsert]
      constructor
      · rintro ((h | h) | h)
        · exact Or.inl h
        · exact Or.inr ⟨row, List.mem_cons_self _ _, h.symm, hp⟩
        · obtain ⟨r, hr, hrid, hrp⟩ := h
          exact Or.inr ⟨r, List.mem_cons_of_mem _ hr, hrid, hrp⟩
      · rintro (h | ⟨r, hr, hrid, hrp⟩)
        · exact Or.inl (Or.inl h)
        · rcases List.mem_cons.mp hr with rfl | hr
          · exact Or.inl (Or.inr hrid.symm)
          · exact Or.inr ⟨r, hr, hrid, hrp⟩
    · rw [if_neg hp, ih]
      constructor
      · rintro (h | ⟨r, hr, hrid, hrp⟩)
        · exact Or.inl h
        · exact Or.inr ⟨r, List.mem_cons_of_mem _ hr, hrid, hrp⟩
      · rintro (h | ⟨r, hr, hrid, hrp⟩)
        · exact Or.inl h
        · rcases List.mem_cons.mp hr with rfl | hr
          · exact absurd hrp hp
          · exact Or.inr ⟨r, hr, hrid, hrp⟩

theorem mem_itemKeys_serverFeedItems (now : Int) (st : OverlayState) (snap : Snapshot)
    (viewer : String) (pid : String) :
    pid ∈ itemKeys (serverFeedItems now st snap viewer) ↔
      ∃ row ∈ snap.posts, row.postID = pid ∧
        passesFeedFilter now st snap viewer row = true := by
  unfold serverFeedItems
  rw [mem_itemKeys_feedFold]
  simp [itemKeys]

theorem nodup_consistent_feedFold (now : Int) (st : OverlayState) (snap : Snapshot)
    (viewer : String) :
    ∀ (rows : List PostRow) (m : List (String × FeedItem)),
      (itemKeys m).Nodup → ConsistentItems m →
      (itemKeys (rows.foldl
          (fun m row =>
            if passesFeedFilter now st snap viewer row
            then upsertItem m row.postID (feedItemOfRow row) else m) m)).Nodup ∧
      ConsistentItems (rows.foldl
          (fun m row =>
            if passesFeedFilter now st snap viewer row
            then upsertItem m row.postID (feedItemOfRow row) else m) m) := by
  intro rows
  induction rows with
  | nil => intro m h1 h2; exact ⟨h1, h2⟩
  | cons row rest ih =>
    intro m h1 h2
    simp only [List.foldl_cons]
    by_cases hp : passesFeedFilter now st snap viewer row = true
    · rw [if_pos hp]
      exact ih _ (nodup_itemKeys_upsert _ _ _ h1)
        (consistent_upsert _ _ _ h2 rfl)
    · rw [if_neg hp]
      exact ih _ h1 h2

theorem serverFeedItems_nodup_consistent (now : Int) (st : OverlayState)
    (snap : Snapshot) (viewer : String) :
    (itemKeys (serverFeedItems now st snap viewer)).Nodup ∧
      ConsistentItems (serverFeedItems now st snap viewer) :=
  nodup_consistent_feedFold now st snap viewer snap.posts []
    List.nodup_nil (fun e he => absurd he (List.not_mem_nil e))

theorem hasItemKey_iff (m : List (String × FeedItem)) (k : String) :
    hasItemKey m k = true ↔ k ∈ itemKeys m := by
  unfold hasItemKey itemKeys
  rw [List.any_eq_true, List.mem_map]
  constructor
  · rintro ⟨e, he, hk⟩
    exact ⟨e, he, by simpa using hk.symm⟩
  · rintro ⟨e, he, hk⟩
    exact ⟨e, he, by simp [hk]⟩

theorem mem_mergePendingPosts_snd (now : Int) (pending : List PendingPost)
    (serverItems : List (String × FeedItem)) (lp : PendingPost) :
    lp ∈ (mergePendingPosts now pending serverItems).2 ↔
      lp ∈ pending ∧ now - lp.timestamp < PENDING_TTL ∧
        existsOnServer serverItems lp = false := by
  unfold mergePendingPosts
  simp only [List.mem_filter, decide_eq_true_eq, Bool.not_eq_true]
  tauto

theorem mem_itemKeys_mergeFold (serverItems : List (String × FeedItem)) :
    ∀ (pending : List PendingPost) (m : List (String × FeedItem)) (pid : String),
      pid ∈ itemKeys (pending.foldl
          (fun m lp =>
            if existsOnServer serverItems lp then m
            else if hasItemKey m lp.postId then m
            else m ++ [(lp.postId, feedItemOfPending lp)]) m) ↔
        (pid ∈ itemKeys m ∨ ∃ lp ∈ pending,
          existsOnServer serverItems lp = false ∧ lp.postId = pid) := by
  intro pending
  induction pending with
  | nil => intro m pid; simp
  | cons lp rest ih =>
    intro m pid
    simp only [List.foldl_cons]
    by_cases hex : existsOnServer serverItems lp = true
    · rw [if_pos hex, ih]
      constructor
      · rintro (h | ⟨l, hl, hle, hlp⟩)
        · exact Or.inl h
        · exact Or.inr ⟨l, List.mem_cons_of_mem _ hl, hle, hlp⟩
      · rintro (h | ⟨l, hl, hle, hlp⟩)
        · exact Or.inl h
        · rcases List.mem_cons.mp hl with rfl | hl
          · rw [hex] at hle; exact absurd hle (by simp)
          · exact Or.inr ⟨l, hl, hle, hlp⟩
    · have hex' : existsOnServer serverItems lp = false := by
        simpa using hex
      rw [if_neg hex]
      by_cases hk : hasItemKey m lp.postId = true
      · rw [if_pos hk, ih]
        have hkm : lp.postId ∈ itemKeys m := (hasItemKey_iff m lp.postId).mp hk
        constructor
        · rintro (h | ⟨l, hl, hle, hlp⟩)
          · exact Or.inl h
          · exact Or.inr ⟨l, List.mem_cons_of_mem _ hl, hle, hlp⟩
        · rintro (h | ⟨l, hl, hle, hlp⟩)
          · exact Or.inl h
          · rcases List.mem_cons.mp hl with rfl | hl
            · exact Or.inl (hlp ▸ hkm)
            · exact Or.inr ⟨l, hl, hle, hlp⟩
      · rw [if_neg hk, ih]
        have happ : itemKeys (m ++ [(lp.postId, feedItemOfPending lp)]) =
            itemKeys m ++ [lp.postId] := by
          simp [itemKeys]
        rw [happ]
        constructor
        · rintro (h | ⟨l, hl, hle, hlp⟩)
          · rcases List.mem_append.mp h with h | h
            · exact Or.inl h
            · rw [List.mem_singleton] at h
              exact Or.inr ⟨lp, List.mem_cons_self _ _, hex', h.symm⟩
          · exact Or.inr ⟨l, List.mem_cons_of_mem _ hl, hle, hlp⟩
        · rintro (h | ⟨l, hl, hle, hlp⟩)
          · exact Or.inl (List.mem_append.mpr (Or.inl h))
          · rcases List.mem_cons.mp hl with rfl | hl
            · exact Or.inl (List.mem_append.mpr (Or.inr (by simp [hlp])))
            · exact Or.inr ⟨l, hl, hle, hlp⟩

theorem mem_itemKeys_mergePendingPosts (now : Int) (pending : List PendingPost)
    (serverItems : List (String × FeedItem)) (pid : String) :
    pid ∈ itemKeys (mergePendingPosts now pending serverItems).1 ↔
      (pid ∈ itemKeys serverItems ∨ ∃ lp ∈ pending,
        now - lp.timestamp < PENDING_TTL ∧
        existsOnServer serverItems lp = false ∧ lp.postId = pid) := by
  unfold mergePendingPosts
  rw [mem_itemKeys_mergeFold]
  constructor
  · rintro (h | ⟨l, hl, hle, hlp⟩)
    · exact Or.inl h
    · rw [List.mem_filter] at hl
      exact Or.inr ⟨l, hl.1, by simpa using hl.2, hle, hlp⟩
  · rintro (h | ⟨l, hl, hlv, hle, hlp⟩)
    · exact Or.inl h
    · exact Or.inr ⟨l, List.mem_filter.mpr ⟨hl, by simpa using hlv⟩, hle, hlp⟩

theorem nodup_consistent_mergeFold (serverItems : List (String × FeedItem)) :
    ∀ (pending : List PendingPost) (m : List (String × FeedItem)),
      (itemKeys m).Nodup → ConsistentItems m →
      (itemKeys (pending.foldl
          (fun m lp =>
            if existsOnServer serverItems lp then m
            else if hasItemKey m lp.postId then m
            else m ++ [(lp.postId, feedItemOfPending lp)]) m)).Nodup ∧
      ConsistentItems (pending.foldl
          (fun m lp =>
            if existsOnServer serverItems lp then m
            else if hasItemKey m lp.postId then m
            else m ++ [(lp.postId, feedItemOfPending lp)]) m) := by
  intro pending
  induction pending with
  | nil => intro m h1 h2; exact ⟨h1, h2⟩
  | cons lp rest ih =>
    intro m h1 h2
    simp only [List.foldl_cons]
    by_cases hex : existsOnServer serverItems lp = true
    · rw [if_pos hex]; exact ih m h1 h2
    · rw [if_neg hex]
      by_cases hk : hasItemKey m lp.postId = true
      · rw [if_pos hk]; exact ih m h1 h2
      · rw [if_neg hk]
        refine ih _ ?_ ?_
        · have happ : itemKeys (m ++ [(lp.postId, feedItemOfPending lp)]) =
              itemKeys m ++ [lp.postId] := by simp [itemKeys]
          rw [happ, List.nodup_append]
          refine ⟨h1, List.nodup_singleton _, ?_⟩
          intro a ha hb
          rw [List.mem_singleton] at hb
          subst hb
          exact hk ((hasItemKey_iff m lp.postId).mpr ha)
        · intro e he
          rcases List.mem_append.mp he with he | he
          · exact h2 e he
          · rw [List.mem_singleton] at he
            subst he
            rfl

theorem mergePendingPosts_nodup_consistent (now : Int) (pending : List PendingPost)
    (serverItems : List (String × FeedItem)) (h1 : (itemKeys serverItems).Nodup)
    (h2 : ConsistentItems serverItems) :
    (itemKeys (mergePendingPosts now pending serverItems).1).Nodup ∧
      ConsistentItems (mergePendingPosts now pending serverItems).1 :=
  nodup_consistent_mergeFold serverItems _ serverItems h1 h2

/-! ## Sort permutation lemmas -/

theorem insertByDesc_perm (key : ProjPost → Int) (x : ProjPost) :
    ∀ l : List ProjPost, (insertByDesc key x l).Perm (x :: l) := by
  intro l
  induction l with
  | nil => exact List.Perm.refl _
  | cons y ys ih =>
    unfold insertByDesc
    by_cases h : key y < key x
    · rw [if_pos h]
    · rw [if_neg h]
      exact (ih.cons y).trans (List.Perm.swap x y ys)

theorem sortByDesc_perm (key : ProjPost → Int) (l : List ProjPost) :
    (sortByDesc key l).Perm l := by
  induction l with
  | nil => exact List.Perm.refl _
  | cons a t ih =>
    unfold sortByDesc
    simp only [List.foldr_cons]
    exact (insertByDesc_perm key a _).trans (ih.cons a)

/-- The post ids of the normal projection are a permutation of the merged
feed-item keys. -/
theorem normalProjection_postIds_perm (decode : String → Option String) (now : Int)
    (st : OverlayState) (snap : Snapshot) (viewer : String) (banner : String) :
    ((normalProjection decode now st snap viewer banner).1.posts.map (·.postId)).Perm
      (itemKeys (mergePendingPosts now st.localPendingPosts
        (serverFeedItems now st snap viewer)).1) := by
  unfold normalProjection
  simp only
  have hperm := (sortByDesc_perm (·.sortTimestamp)
    ((mergePendingPosts now st.localPendingPosts
      (serverFeedItems now st snap viewer)).1.map
        fun p => assemblePost now st snap viewer p.2)).map (·.postId)
  refine hperm.trans ?_
  rw [List.map_map]
  have hco := (mergePendingPosts_nodup_consistent now st.localPendingPosts
    (serverFeedItems now st snap viewer)
    (serverFeedItems_nodup_consistent now st snap viewer).1
    (serverFeedItems_nodup_consistent now st snap viewer).2).2
  have : ((mergePendingPosts now st.localPendingPosts
      (serverFeedItems now st snap viewer)).1.map
        ((fun p => p.postId) ∘ fun p => assemblePost now st snap viewer p.2)) =
      itemKeys (mergePendingPosts now st.localPendingPosts
        (serverFeedItems now st snap viewer)).1 := by
    apply List.map_congr_left
    intro e he
    exact hco e he
  rw [this]

theorem mem_normalProjection_postIds (decode : String → Option String) (now : Int)
    (st : OverlayState) (snap : Snapshot) (viewer : String) (banner : String)
    (pid : String) :
    pid ∈ (normalProjection decode now st snap viewer banner).1.posts.map (·.postId) ↔
      (pid ∈ itemKeys (serverFeedItems now st snap viewer) ∨
        ∃ lp ∈ st.localPendingPosts,
          now - lp.timestamp < PENDING_TTL ∧
          existsOnServer (serverFeedItems now st snap viewer) lp = false ∧
          lp.postId = pid) := by
  rw [(normalProjection_postIds_perm decode now st snap viewer banner).mem_iff]
  exact mem_itemKeys_mergePendingPosts now st.localPendingPosts _ pid

/-! ## Visibility lemmas (claim C6) -/

/-- Characterization of `canView` when the author's visibility policy is one
of the three documented values. -/
theorem canViewB_spec (followers : List FollowRow) (viewer authorId : String)
    (a : AccountRow)
    (hpol : postVisibilityOf a = "Everyone" ∨ postVisibilityOf a = "Followers" ∨
      postVisibilityOf a = "Friends") :
    canViewB followers viewer authorId a = true ↔
      (authorId = viewer ∨
       (profilePrivacyOf a = "private" ∧ authorId ∈ followingOf followers viewer ∧
         viewer ∈ followingOf followers authorId) ∨
       (profilePrivacyOf a ≠ "private" ∧
         (postVisibilityOf a = "Everyone" ∨
          (postVisibilityOf a = "Followers" ∧ authorId ∈ followingOf followers viewer) ∨
          (postVisibilityOf a = "Friends" ∧ authorId ∈ followingOf followers viewer ∧
            viewer ∈ followingOf followers authorId)))) := by
  unfold canViewB
  by_cases hown : authorId = viewer
  · simp [hown]
  · rw [if_neg hown]
    by_cases hpriv : profilePrivacyOf a = "private"
    · rw [if_pos hpriv]
      simp [hown, hpriv]
    · rw [if_neg hpriv]
      rcases hpol with hv | hv | hv
      · rw [hv]
        simp [hown, hpriv, hv]
      · rw [hv]
        simp [hown, hpriv, hv]
      · rw [hv]
        simp [hown, hpriv, hv]

/-- Characterization of the feed exclusion chain for a non-tombstoned post row. -/
theorem passesFeedFilter_spec (now : Int) (st : OverlayState) (snap : Snapshot)
    (viewer : String) (row : PostRow)
    (hdel : row.postID ∉ st.deletedPostIds)
    (hpol : ∀ a, accountFor snap.accounts row.userID = some a →
      postVisibilityOf a = "Everyone" ∨ postVisibilityOf a = "Followers" ∨
        postVisibilityOf a = "Friends") :
    passesFeedFilter now st snap viewer row = true ↔
      ∃ a, accountFor snap.accounts row.userID = some a ∧
        isBannedNow now snap.bans a.username = false ∧
        blocksB snap.blocks viewer row.userID = false ∧
        blocksB snap.blocks row.userID viewer = false ∧
        (row.userID = viewer ∨
         (profilePrivacyOf a = "private" ∧ row.userID ∈ followingOf snap.followers viewer ∧
           viewer ∈ followingOf snap.followers row.userID) ∨
         (profilePrivacyOf a ≠ "private" ∧
           (postVisibilityOf a = "Everyone" ∨
            (postVisibilityOf a = "Followers" ∧ row.userID ∈ followingOf snap.followers viewer) ∨
            (postVisibilityOf a = "Friends" ∧ row.userID ∈ followingOf snap.followers viewer ∧
              viewer ∈ followingOf snap.followers row.userID)))) := by
  unfold passesFeedFilter
  rw [if_neg hdel]
  by_cases hb : (blocksB snap.blocks viewer row.userID
      || blocksB snap.blocks row.userID viewer) = true
  · rw [if_pos hb]
    rw [Bool.or_eq_true] at hb
    constructor
    · intro hx; exact absurd hx (by simp)
    · rintro ⟨a, _, _, hbl1, hbl2, _⟩
      rcases hb with hb | hb
      · rw [hb] at hbl1; exact absurd hbl1 (by simp)
      · rw [hb] at hbl2; exact absurd hbl2 (by simp)
  · rw [if_neg hb]
    have hb2 := hb
    rw [Bool.or_eq_true, not_or] at hb2
    obtain ⟨hbl1, hbl2⟩ := hb2
    rw [Bool.not_eq_true] at hbl1 hbl2
    rcases hacc : accountFor snap.accounts row.userID with _ | a
    · constructor
      · intro hx; exact absurd hx (by simp)
      · rintro ⟨a, ha, _⟩; cases ha
    · dsimp only
      by_cases hban : isBannedNow now snap.bans a.username = true
      · rw [if_pos hban]
        constructor
        · intro hx; exact absurd hx (by simp)
        · rintro ⟨a2, ha2, hban2, _⟩
          injection ha2 with ha2
          subst ha2
          rw [hban] at hban2
          exact absurd hban2 (by simp)
      · rw [if_neg hban]
        rw [canViewB_spec snap.followers viewer row.userID a (hpol a hacc)]
        constructor
        · intro hx
          exact ⟨a, rfl, by simpa using hban, hbl1, hbl2, hx⟩
        · rintro ⟨a2, ha2, _, _, _, hx⟩
          injection ha2 with ha2
          subst ha2
          exact hx

/-! ## Override-map lemmas (claims C2, C5, C9) -/

theorem lookupOv_eq_none_iff (m : List (String × OverrideEntry)) (k : String) :
    lookupOv m k = none ↔ ∀ e ∈ m, e.1 ≠ k := by
  unfold lookupOv
  rw [Option.map_eq_none', List.find?_eq_none]
  simp

theorem mem_of_lookupOv_eq_some (m : List (String × OverrideEntry)) (k : String)
    (v : OverrideEntry) (h : lookupOv m k = some v) : (k, v) ∈ m := by
  unfold lookupOv at h
  rcases hf : m.find? (fun p => p.1 = k) with _ | e
  · rw [hf] at h; cases h
  · rw [hf] at h
    have he : e ∈ m := List.mem_of_find?_eq_some hf
    have hk : e.1 = k := by simpa using List.find?_some hf
    have hv : e.2 = v := by simpa using h
    rw [← hk, ← hv]
    exact he

theorem lookupOv_eq_some_of_mem_nodup (m : List (String × OverrideEntry))
    (k : String) (v : OverrideEntry) (hm : (m.map (·.1)).Nodup)
    (h : (k, v) ∈ m) : lookupOv m k = some v := by
  rcases hf : lookupOv m k with _ | v2
  · rw [lookupOv_eq_none_iff] at hf
    exact absurd rfl (hf (k, v) h)
  · have h2 := mem_of_lookupOv_eq_some m k v2 hf
    have : (k, v) = (k, v2) := List.inj_on_of_nodup_map hm h h2 rfl
    injection this with _ h3
    rw [h3]

theorem mem_removeOv (m : List (String × OverrideEntry)) (k : String)
    (e : String × OverrideEntry) : e ∈ removeOv m k ↔ e ∈ m ∧ e.1 ≠ k := by
  unfold removeOv
  rw [List.mem_filter]
  simp

theorem lookupOv_removeOv_ne (m : List (String × OverrideEntry)) (k k' : String)
    (h : k' ≠ k) : lookupOv (removeOv m k) k' = lookupOv m k' := by
  unfold lookupOv removeOv
  congr 1
  induction m with
  | nil => rfl
  | cons e t ih =>
    by_cases hek : e.1 ≠ k
    · rw [List.filter_cons_of_pos (by simpa using hek)]
      by_cases hek' : e.1 = k'
      · rw [List.find?_cons_of_pos _ (by simpa using hek'),
            List.find?_cons_of_pos _ (by simpa using hek')]
      · rw [List.find?_cons_of_neg _ (by simpa using hek'),
            List.find?_cons_of_neg _ (by simpa using hek')]
        exact ih
    · rw [List.filter_cons_of_neg (by simpa using hek)]
      rw [not_not] at hek
      rw [List.find?_cons_of_neg _ (by simp [hek, Ne.symm h])]
      exact ih

theorem removeOv_keys_nodup (m : List (String × OverrideEntry)) (k : String)
    (hm : (m.map (·.1)).Nodup) : ((removeOv m k).map (·.1)).Nodup := by
  unfold removeOv
  exact List.Sublist.nodup (List.Sublist.map _ (List.filter_sublist _)) hm

/-! ## The like pass: structure and idempotence -/

/-- The like-pass fold accumulates onto any prefix. -/
theorem likesPassCore_acc (viewer : String) :
    ∀ (posts : List ProjPost) (m : List (String × OverrideEntry))
      (acc : List ProjPost),
      posts.foldl
        (fun (acc : List ProjPost × List (String × OverrideEntry)) post =>
          let r := applyLikeOverride viewer acc.2 post
          (acc.1 ++ [r.1], r.2))
        (acc, m) =
      (acc ++ (likesPassCore viewer posts m).1, (likesPassCore viewer posts m).2) := by
  intro posts
  induction posts with
  | nil => intro m acc; simp [likesPassCore]
  | cons p rest ih =>
    intro m acc
    simp only [List.foldl_cons]
    rw [ih _ (acc ++ [(applyLikeOverride viewer m p).1])]
    unfold likesPassCore
    simp only [List.foldl_cons, List.nil_append]
    rw [ih _ [(applyLikeOverride viewer m p).1]]
    simp [likesPassCore]

theorem applyLikeOverride_map_cases (viewer : String)
    (m : List (String × OverrideEntry)) (post : ProjPost) :
    (applyLikeOverride viewer m post).2 = m ∨
      (applyLikeOverride viewer m post).2 = removeOv m post.postId := by
  unfold applyLikeOverride
  rcases lookupOv m post.postId with _ | ov
  · exact Or.inl rfl
  · dsimp only
    by_cases h1 : ov.status ∧ (post.likes.any fun l => l.userId = viewer) = true
    · rw [if_pos h1]; exact Or.inr rfl
    · rw [if_neg h1]
      by_cases h2 : ¬ ov.status ∧ ¬ (post.likes.any fun l => l.userId = viewer) = true
      · rw [if_pos h2]; exact Or.inr rfl
      · rw [if_neg h2]
        by_cases h3 : ov.status = true
        · rw [if_pos h3]; exact Or.inl rfl
        · rw [if_neg h3]; exact Or.inl rfl

theorem applyLikeOverride_of_lookup_none (viewer : String)
    (m : List (String × OverrideEntry)) (post : ProjPost)
    (h : lookupOv m post.postId = none) :
    applyLikeOverride viewer m post = (post, m) := by
  unfold applyLikeOverride
  rw [h]

theorem lookupOv_none_of_subset (m m' : List (String × OverrideEntry)) (k : String)
    (hsub : ∀ e ∈ m', e ∈ m) (h : lookupOv m k = none) : lookupOv m' k = none := by
  rw [lookupOv_eq_none_iff] at h ⊢
  exact fun e he => h e (hsub e he)

/-- Server already agrees with the override: drop the entry, post untouched. -/
theorem applyLikeOverride_agree (viewer : String)
    (m : List (String × OverrideEntry)) (post : ProjPost) (ov : OverrideEntry)
    (hl : lookupOv m post.postId = some ov)
    (h : ov.status = (post.likes.any fun l => l.userId = viewer)) :
    applyLikeOverride viewer m post = (post, removeOv m post.postId) := by
  unfold applyLikeOverride
  rw [hl]
  dsimp only
  rcases hs : ov.status with _ | _ <;> rcases hh : post.likes.any fun l => l.userId = viewer
  · simp [hs, hh]
  · rw [hs, hh] at h; cases h
  · rw [hs, hh] at h; cases h
  · simp [hs, hh]

/-- The forced post of a disagreeing override. -/
def forcedLike (viewer : String) (ov : OverrideEntry) (post : ProjPost) : ProjPost :=
  if ov.status then { post with likes := post.likes ++ [{ userId := viewer }] }
  else { post with likes := post.likes.filter fun l => l.userId ≠ viewer }

/-- Server disagrees with the override: force the projection, keep the entry. -/
theorem applyLikeOverride_disagree (viewer : String)
    (m : List (String × OverrideEntry)) (post : ProjPost) (ov : OverrideEntry)
    (hl : lookupOv m post.postId = some ov)
    (h : ov.status ≠ (post.likes.any fun l => l.userId = viewer)) :
    applyLikeOverride viewer m post = (forcedLike viewer ov post, m) := by
  unfold applyLikeOverride forcedLike
  rw [hl]
  dsimp only
  rcases hs : ov.status with _ | _ <;> rcases hh : post.likes.any fun l => l.userId = viewer
  · rw [hs, hh] at h; exact absurd rfl h
  · simp [hs, hh]
  · simp [hs, hh]
  · rw [hs, hh] at h; exact absurd rfl h

theorem likesPassCore_cons (viewer : String) (p : ProjPost) (rest : List ProjPost)
    (m : List (String × OverrideEntry)) :
    likesPassCore viewer (p :: rest) m =
      ((applyLikeOverride viewer m p).1 ::
        (likesPassCore viewer rest (applyLikeOverride viewer m p).2).1,
       (likesPassCore viewer rest (applyLikeOverride viewer m p).2).2) := by
  unfold likesPassCore
  simp only [List.foldl_cons]
  rw [show ∀ z : ProjPost × List (String × OverrideEntry),
      (([] : List ProjPost) ++ [z.1], z.2) = ([z.1], z.2) from fun z => by simp]
  rw [likesPassCore_acc]
  simp [likesPassCore]

/-- Structure of the like pass: the surviving map is a submap with duplicate-
free keys, entries whose post never appears survive untouched, posts with no
override entry pass through unchanged, and re-running the pass on the same
posts with the surviving map changes nothing. -/
theorem likesPassCore_spec (viewer : String) :
    ∀ (posts : List ProjPost) (m : List (String × OverrideEntry)),
      (m.map (·.1)).Nodup → (posts.map (·.postId)).Nodup →
      (∀ e ∈ (likesPassCore viewer posts m).2, e ∈ m) ∧
      ((likesPassCore viewer posts m).2.map (·.1)).Nodup ∧
      (∀ e ∈ m, e.1 ∉ posts.map (·.postId) → e ∈ (likesPassCore viewer posts m).2) ∧
      (∀ p ∈ posts, lookupOv m p.postId = none → p ∈ (likesPassCore viewer posts m).1) ∧
      likesPassCore viewer posts (likesPassCore viewer posts m).2 =
        likesPassCore viewer posts m := by
  intro posts
  induction posts with
  | nil =>
    intro m hm _
    refine ⟨fun e he => ?_, ?_, fun e he _ => ?_, fun p hp _ => absurd hp (List.not_mem_nil p), rfl⟩
    · simpa [likesPassCore] using he
    · simpa [likesPassCore] using hm
    · simpa [likesPassCore] using he
  | cons p rest ih =>
    intro m hm hp
    rw [List.map_cons, List.nodup_cons] at hp
    obtain ⟨hpid, hrest⟩ := hp
    rcases hl : lookupOv m p.postId with _ | ov
    · -- no override for this post
      have happ : applyLikeOverride viewer m p = (p, m) :=
        applyLikeOverride_of_lookup_none viewer m p hl
      obtain ⟨ih1, ih2, ih3, ih4, ih5⟩ := ih m hm hrest
      rw [likesPassCore_cons, happ]
      refine ⟨ih1, ih2, fun e he hk => ih3 e he ?_, ?_, ?_⟩
      · intro hx; exact hk (List.mem_cons_of_mem _ hx)
      · intro q hq hlq
        rcases List.mem_cons.mp hq with rfl | hq
        · exact List.mem_cons_self _ _
        · exact List.mem_cons_of_mem _ (ih4 q hq hlq)
      · rw [likesPassCore_cons]
        have hl2 : lookupOv (likesPassCore viewer rest m).2 p.postId = none :=
          lookupOv_none_of_subset m _ p.postId ih1 hl
        rw [applyLikeOverride_of_lookup_none viewer _ p hl2, ih5]
    · by_cases hagree : ov.status = (p.likes.any fun l => l.userId = viewer)
      · -- agree: entry dropped, post untouched
        have happ : applyLikeOverride viewer m p = (p, removeOv m p.postId) :=
          applyLikeOverride_agree viewer m p ov hl hagree
        have hm1 : ((removeOv m p.postId).map (·.1)).Nodup := removeOv_keys_nodup m _ hm
        obtain ⟨ih1, ih2, ih3, ih4, ih5⟩ := ih (removeOv m p.postId) hm1 hrest
        rw [likesPassCore_cons, happ]
        refine ⟨?_, ih2, ?_, ?_, ?_⟩
        · intro e he
          exact ((mem_removeOv m p.postId e).mp (ih1 e he)).1
        · intro e he hk
          refine ih3 e ((mem_removeOv m p.postId e).mpr ⟨he, ?_⟩) ?_
          · intro hx; exact hk (by rw [hx]; exact List.mem_cons_self _ _)
          · intro hx; exact hk (List.mem_cons_of_mem _ hx)
        · intro q hq hlq
          rcases List.mem_cons.mp hq with rfl | hq
          · rw [hl] at hlq; cases hlq
          · refine List.mem_cons_of_mem _ (ih4 q hq ?_)
            by_cases hqp : q.postId = p.postId
            · rw [hqp, hl] at hlq; cases hlq
            · rw [lookupOv_removeOv_ne m _ _ hqp]
              exact hlq
        · rw [likesPassCore_cons]
          have hnone : lookupOv (removeOv m p.postId) p.postId = none := by
            rw [lookupOv_eq_none_iff]
            intro e he
            exact ((mem_removeOv m p.postId e).mp he).2
          have hl2 : lookupOv (likesPassCore viewer rest (removeOv m p.postId)).2
              p.postId = none :=
            lookupOv_none_of_subset _ _ p.postId ih1 hnone
          rw [applyLikeOverride_of_lookup_none viewer _ p hl2, ih5]
      · -- disagree: projection forced, entry kept
        have happ : applyLikeOverride viewer m p = (forcedLike viewer ov p, m) :=
          applyLikeOverride_disagree viewer m p ov hl hagree
        obtain ⟨ih1, ih2, ih3, ih4, ih5⟩ := ih m hm hrest
        rw [likesPassCore_cons, happ]
        refine ⟨ih1, ih2, ?_, ?_, ?_⟩
        · intro e he hk
          exact ih3 e he (fun hx => hk (List.mem_cons_of_mem _ hx))
        · intro q hq hlq
          rcases List.mem_cons.mp hq with rfl | hq
          · rw [hl] at hlq; cases hlq
          · exact List.mem_cons_of_mem _ (ih4 q hq hlq)
        · rw [likesPassCore_cons]
          have hmem : (p.postId, ov) ∈ (likesPassCore viewer rest m).2 :=
            ih3 (p.postId, ov) (mem_of_lookupOv_eq_some m _ ov hl) hpid
          have hl2 : lookupOv (likesPassCore viewer rest m).2 p.postId = some ov :=
            lookupOv_eq_some_of_mem_nodup _ _ _ ih2 hmem
          rw [applyLikeOverride_disagree viewer _ p ov hl2 hagree, ih5]

/-! ## The follow pass -/

theorem followsPassCore_acc :
    ∀ (entries : List (String × OverrideEntry)) (fl : List String)
      (kept0 : List (String × OverrideEntry)),
      entries.foldl
        (fun (acc : List String × List (String × OverrideEntry)) e =>
          let r := applyFollowOverride acc.1 e.1 e.2
          (r.1, if r.2 then acc.2 ++ [e] else acc.2))
        (fl, kept0) =
      ((followsPassCore fl entries).1, kept0 ++ (followsPassCore fl entries).2) := by
  intro entries
  induction entries with
  | nil => intro fl kept0; simp [followsPassCore]
  | cons e rest ih =>
    intro fl kept0
    simp only [List.foldl_cons]
    rw [ih]
    have hR : followsPassCore fl (e :: rest) =
        ((followsPassCore (applyFollowOverride fl e.1 e.2).1 rest).1,
         (if (applyFollowOverride fl e.1 e.2).2 then [e] else []) ++
           (followsPassCore (applyFollowOverride fl e.1 e.2).1 rest).2) := by
      unfold followsPassCore
      simp only [List.foldl_cons]
      rw [ih]
      by_cases hr : (applyFollowOverride fl e.1 e.2).2 = true <;>
        simp [hr, followsPassCore]
    rw [hR]
    by_cases hr : (applyFollowOverride fl e.1 e.2).2 = true <;> simp [hr]

theorem followsPassCore_cons (fl : List String) (e : String × OverrideEntry)
    (rest : List (String × OverrideEntry)) :
    followsPassCore fl (e :: rest) =
      ((followsPassCore (applyFollowOverride fl e.1 e.2).1 rest).1,
       (if (applyFollowOverride fl e.1 e.2).2 then [e] else []) ++
         (followsPassCore (applyFollowOverride fl e.1 e.2).1 rest).2) := by
  unfold followsPassCore
  simp only [List.foldl_cons]
  rw [followsPassCore_acc]
  by_cases hr : (applyFollowOverride fl e.1 e.2).2 = true <;>
    simp [hr, followsPassCore]

theorem applyFollowOverride_mem_ne (fl : List String) (k : String)
    (ov : OverrideEntry) (uid : String) (h : uid ≠ k) :
    uid ∈ (applyFollowOverride fl k ov).1 ↔ uid ∈ fl := by
  unfold applyFollowOverride
  by_cases hov : ov.status = true <;> by_cases hmem : k ∈ fl <;>
    simp [hov, hmem, h]

theorem followsPass_kept_subset :
    ∀ (entries : List (String × OverrideEntry)) (fl : List String),
      ∀ e ∈ (followsPassCore fl entries).2, e ∈ entries := by
  intro entries
  induction entries with
  | nil => intro fl e he; simp [followsPassCore] at he
  | cons a rest ih =>
    intro fl e he
    rw [followsPassCore_cons] at he
    dsimp only at he
    rcases List.mem_append.mp he with he | he
    · by_cases hr : (applyFollowOverride fl a.1 a.2).2 = true
      · rw [if_pos hr, List.mem_singleton] at he
        exact he ▸ List.mem_cons_self _ _
      · rw [if_neg hr] at he
        exact absurd he (List.not_mem_nil e)
    · exact List.mem_cons_of_mem _ (ih _ e he)

theorem followsPass_mem_ne :
    ∀ (entries : List (String × OverrideEntry)) (fl : List String) (uid : String),
      (∀ e ∈ entries, e.1 ≠ uid) →
      (uid ∈ (followsPassCore fl entries).1 ↔ uid ∈ fl) := by
  intro entries
  induction entries with
  | nil => intro fl uid _; simp [followsPassCore]
  | cons a rest ih =>
    intro fl uid h
    rw [followsPassCore_cons]
    dsimp only
    rw [ih _ uid (fun e he => h e (List.mem_cons_of_mem _ he))]
    exact applyFollowOverride_mem_ne fl a.1 a.2 uid
      (fun hx => h a (List.mem_cons_self _ _) (hx ▸ rfl))

/-- The expiry cleanup removes every entry at the key of an expired entry
(keys are duplicate-free). -/
theorem cleanup_no_key (now : Int) (m : List (String × OverrideEntry))
    (k : String) (ov : OverrideEntry) (hm : (m.map (·.1)).Nodup)
    (hmem : (k, ov) ∈ m) (hexp : now - ov.timestamp > OVERRIDE_TIMEOUT) :
    ∀ e ∈ m.filter (fun e => decide (¬ (now - e.2.timestamp > OVERRIDE_TIMEOUT))),
      e.1 ≠ k := by
  intro e he
  rw [List.mem_filter] at he
  obtain ⟨hem, hfresh⟩ := he
  intro hk
  have : e = (k, ov) := List.inj_on_of_nodup_map hm hem hmem hk
  rw [this] at hfresh
  simp only [decide_eq_true_eq] at hfresh
  exact hfresh hexp

theorem likesPassCore_map_subset (viewer : String) :
    ∀ (posts : List ProjPost) (m : List (String × OverrideEntry)),
      ∀ e ∈ (likesPassCore viewer posts m).2, e ∈ m := by
  intro posts
  induction posts with
  | nil => intro m e he; simpa [likesPassCore] using he
  | cons p rest ih =>
    intro m e he
    rw [likesPassCore_cons] at he
    dsimp only at he
    have h1 := ih (applyLikeOverride viewer m p).2 e he
    rcases applyLikeOverride_map_cases viewer m p with hc | hc
    · rw [hc] at h1; exact h1
    · rw [hc] at h1
      exact ((mem_removeOv m p.postId e).mp h1).1

theorem likesPassCore_mem_of_lookup_none (viewer : String) :
    ∀ (posts : List ProjPost) (m : List (String × OverrideEntry)) (p : ProjPost),
      p ∈ posts → lookupOv m p.postId = none →
      p ∈ (likesPassCore viewer posts m).1 := by
  intro posts
  induction posts with
  | nil => intro m p hp _; exact absurd hp (List.not_mem_nil p)
  | cons q rest ih =>
    intro m p hp hl
    rw [likesPassCore_cons]
    dsimp only
    rcases List.mem_cons.mp hp with rfl | hp
    · rw [applyLikeOverride_of_lookup_none viewer m p hl]
      exact List.mem_cons_self _ _
    · refine List.mem_cons_of_mem _ (ih _ p hp ?_)
      have hsub : ∀ e ∈ (applyLikeOverride viewer m q).2, e ∈ m := by
        intro e he
        rcases applyLikeOverride_map_cases viewer m q with hc | hc
        · rw [hc] at he; exact he
        · rw [hc] at he; exact ((mem_removeOv m q.postId e).mp he).1
      exact lookupOv_none_of_subset m _ p.postId hsub hl

/-- The overlay returned by the normal projection: pending posts replaced by
the merge survivors, pending comments pruned, everything else untouched. -/
theorem normalProjection_overlay (decode : String → Option String) (now : Int)
    (st : OverlayState) (snap : Snapshot) (viewer banner : String) :
    (normalProjection decode now st snap viewer banner).2 =
      { st with
        localPendingPosts := (mergePendingPosts now st.localPendingPosts
          (serverFeedItems now st snap viewer)).2,
        pendingComments := prunePendingComments now st snap } := rfl

/-- The three components of `applyOptimisticUpdates`. -/
theorem applyOptimisticUpdates_eq (now : Int) (viewer : String)
    (posts : List ProjPost) (followingList : List String) (st : OverlayState) :
    applyOptimisticUpdates now viewer posts followingList st =
      ((likesPassCore viewer posts (st.pendingLikes.filter fun e =>
          decide (¬ (now - e.2.timestamp > OVERRIDE_TIMEOUT)))).1,
       (followsPassCore followingList (st.pendingFollows.filter fun e =>
          decide (¬ (now - e.2.timestamp > OVERRIDE_TIMEOUT)))).1,
       { st with
         pendingLikes := (likesPassCore viewer posts (st.pendingLikes.filter fun e =>
           decide (¬ (now - e.2.timestamp > OVERRIDE_TIMEOUT)))).2,
         pendingFollows := (followsPassCore followingList (st.pendingFollows.filter fun e =>
           decide (¬ (now - e.2.timestamp > OVERRIDE_TIMEOUT)))).2 }) := rfl

theorem existsOnServer_iff (serverItems : List (String × FeedItem)) (lp : PendingPost) :
    existsOnServer serverItems lp = true ↔
      ∃ it ∈ serverItems, it.2.authorId = lp.userId ∧
        it.2.postContent = lp.postContent ∧
        (it.2.timestamp - lp.timestamp).natAbs < 900000 := by
  unfold existsOnServer
  rw [List.any_eq_true]
  simp

/-- Every post of the normal projection is the assembly of a merged feed
item, and conversely. -/
theorem mem_normalProjection_posts (decode : String → Option String) (now : Int)
    (st : OverlayState) (snap : Snapshot) (viewer banner : String)
    (post : ProjPost) :
    post ∈ (normalProjection decode now st snap viewer banner).1.posts ↔
      ∃ pair ∈ (mergePendingPosts now st.localPendingPosts
          (serverFeedItems now st snap viewer)).1,
        post = assemblePost now st snap viewer pair.2 := by
  unfold normalProjection
  dsimp only
  rw [(sortByDesc_perm (·.sortTimestamp) _).mem_iff, List.mem_map]
  constructor
  · rintro ⟨pair, hpair, hpost⟩
    exact ⟨pair, hpair, hpost.symm⟩
  · rintro ⟨pair, hpair, hpost⟩
    exact ⟨pair, hpair, hpost.symm⟩

theorem mem_commentsOfPost (deleted : List String) (comments : List CommentRow)
    (pid : String) (c : ProjComment) :
    c ∈ commentsOfPost deleted comments pid ↔
      ∃ row ∈ comments, row.commentID ∉ deleted ∧ row.postID = pid ∧
        c = ⟨some row.commentID, some row.postID, row.userID, row.commentText,
             row.timestamp⟩ := by
  unfold commentsOfPost
  rw [List.mem_map]
  constructor
  · rintro ⟨row, hrow, hc⟩
    rw [List.mem_filter] at hrow
    obtain ⟨h1, h2⟩ := hrow
    simp only [decide_eq_true_eq] at h2
    exact ⟨row, h1, h2.1, h2.2, hc.symm⟩
  · rintro ⟨row, hrow, h1, h2, hc⟩
    exact ⟨row, List.mem_filter.mpr ⟨hrow, by simp [h1, h2]⟩, hc.symm⟩

theorem lookupOv_removeOv_self (m : List (String × OverrideEntry)) (k : String) :
    lookupOv (removeOv m k) k = none := by
  rw [lookupOv_eq_none_iff]
  intro e he
  exact ((mem_removeOv m k e).mp he).2

theorem any_viewer_push (viewer : String) (l : List LikeEntry) :
    ((l ++ [({ userId := viewer } : LikeEntry)]).any fun x => x.userId = viewer) = true := by
  simp

theorem any_viewer_filter (viewer : String) (l : List LikeEntry) :
    ((l.filter fun x => x.userId ≠ viewer).any fun x => x.userId = viewer) = false := by
  rw [List.any_eq_false]
  intro x hx
  rw [List.mem_filter] at hx
  have := hx.2
  simp only [decide_eq_true_eq] at this ⊢
  exact this

/-! ## Read-cycle structure lemmas (claim C9) -/

/-- The banner text extracted from the first server-info row. -/
def bannerOf (snap : Snapshot) : String :=
  match snap.servInfo with | [] => "" | r :: _ => r.bannerText

/-- A `getPosts` call either hits the outage gate or is the normal projection. -/
theorem getPosts_cases (decode : String → Option String) (now : Int)
    (st : OverlayState) (snap : Snapshot) (viewer : String) :
    getPosts decode now st snap viewer = (outageSentinel (bannerOf snap), st) ∨
    getPosts decode now st snap viewer =
      normalProjection decode now st snap viewer (bannerOf snap) := by
  unfold getPosts bannerOf
  dsimp only
  split
  · exact Or.inl rfl
  · exact Or.inr rfl

/-- The successor state built by a normally completing `refreshFeed` cycle. -/
def okBody (decode : String → Option String) (now : Int) (snap : Snapshot)
    (viewer : String) (s : AppState) : AppState :=
  let np := normalProjection decode now s.overlay snap viewer (bannerOf snap)
  let ap := applyOptimisticUpdates now viewer np.1.posts s.currentUserFollowingList np.2
  { posts := ((np.2.localPendingPosts.filter fun lp =>
        decide (lp.postId ∉ np.1.posts.map (·.postId))).map projPostOfPending) ++ ap.1,
    currentUserFollowingList := np.1.currentUserFollowingList,
    currentUserFollowersList := np.1.currentUserFollowersList,
    overlay := ap.2.2 }

/-- A cycle that completes normally produces exactly `okBody`. -/
theorem readCycle_ok_spec (decode : String → Option String) (now : Int)
    (snap : Snapshot) (viewer : String) (s s' : AppState)
    (h : readCycle decode now snap viewer s = .ok s') :
    s' = okBody decode now snap viewer s := by
  rcases getPosts_cases decode now s.overlay snap viewer with hgp | hgp
  · unfold readCycle at h
    rw [hgp] at h
    dsimp only [outageSentinel] at h
    cases h
  · unfold readCycle at h
    rw [hgp] at h
    dsimp only at h
    unfold okBody
    dsimp only
    rcases hcu : (normalProjection decode now s.overlay snap viewer
        (bannerOf snap)).1.currentUserData with _ | _ | u
    · rw [hcu] at h
      cases h
    · rw [hcu] at h
      dsimp only at h
      injection h with h
      exact h.symm
    · rw [hcu] at h
      dsimp only at h
      by_cases hb : u.banned = true
      · rw [if_pos hb] at h
        cases h
      · rw [if_neg hb] at h
        injection h with h
        exact h.symm

/-- After a merge, every surviving local pending post's id is already among
the projected post ids, so the `missingPending` re-check of `refreshFeed`
never injects anything. -/
theorem missingPending_nil (decode : String → Option String) (now : Int)
    (st : OverlayState) (snap : Snapshot) (viewer banner : String) :
    ((normalProjection decode now st snap viewer banner).2.localPendingPosts.filter
      fun lp => decide (lp.postId ∉
        (normalProjection decode now st snap viewer banner).1.posts.map (·.postId)))
      = [] := by
  rw [List.filter_eq_nil_iff]
  intro lp hlp
  rw [normalProjection_overlay] at hlp
  dsimp only at hlp
  rw [mem_mergePendingPosts_snd] at hlp
  obtain ⟨hmem, hvalid, hex⟩ := hlp
  simp only [decide_eq_true_eq, not_not, Bool.not_eq_true]
  rw [mem_normalProjection_postIds]
  exact Or.inr ⟨lp, hmem, hvalid, hex, rfl⟩

/-- The visibility filter reads the overlay only through `deletedPostIds`. -/
theorem passesFeedFilter_congr (now : Int) (st st' : OverlayState) (snap : Snapshot)
    (viewer : String) (row : PostRow)
    (h : st'.deletedPostIds = st.deletedPostIds) :
    passesFeedFilter now st' snap viewer row = passesFeedFilter now st snap viewer row := by
  unfold passesFeedFilter
  rw [h]

/-- The server feed items depend on the overlay only through `deletedPostIds`. -/
theorem serverFeedItems_congr (now : Int) (st st' : OverlayState) (snap : Snapshot)
    (viewer : String) (h : st'.deletedPostIds = st.deletedPostIds) :
    serverFeedItems now st' snap viewer = serverFeedItems now st snap viewer := by
  unfold serverFeedItems
  suffices hgen : ∀ (rows : List PostRow) (m : List (String × FeedItem)),
      rows.foldl (fun m row => if passesFeedFilter now st' snap viewer row
        then upsertItem m row.postID (feedItemOfRow row) else m) m =
      rows.foldl (fun m row => if passesFeedFilter now st snap viewer row
        then upsertItem m row.postID (feedItemOfRow row) else m) m by
    exact hgen snap.posts []
  intro rows
  induction rows with
  | nil => intro m; rfl
  | cons row rest ih =>
    intro m
    simp only [List.foldl_cons]
    rw [passesFeedFilter_congr now st st' snap viewer row h]
    exact ih _

/-- Entries already matched on the server are no-ops of the injection fold. -/
theorem mergeFold_filter (serverItems : List (String × FeedItem)) :
    ∀ (pending : List PendingPost) (m : List (String × FeedItem)),
      (pending.filter fun lp => ¬ existsOnServer serverItems lp).foldl
        (fun m lp =>
          if existsOnServer serverItems lp then m
          else if hasItemKey m lp.postId then m
          else m ++ [(lp.postId, feedItemOfPending lp)]) m =
      pending.foldl
        (fun m lp =>
          if existsOnServer serverItems lp then m
          else if hasItemKey m lp.postId then m
          else m ++ [(lp.postId, feedItemOfPending lp)]) m := by
  intro pending
  induction pending with
  | nil => intro m; rfl
  | cons lp rest ih =>
    intro m
    by_cases hex : existsOnServer serverItems lp = true
    · rw [List.filter_cons_of_neg (by simp [hex])]
      simp only [List.foldl_cons]
      rw [if_pos hex]
      exact ih m
    · rw [List.filter_cons_of_pos (by simp [hex])]
      simp only [List.foldl_cons]
      exact ih _

/-- Re-merging the surviving pending posts against the same server items
reproduces both the merged item list and the survivors. -/
theorem mergePendingPosts_idem (now : Int) (pending : List PendingPost)
    (serverItems : List (String × FeedItem)) :
    mergePendingPosts now (mergePendingPosts now pending serverItems).2 serverItems =
      mergePendingPosts now pending serverItems := by
  unfold mergePendingPosts
  dsimp only
  set V := List.filter (fun p => decide (now - p.timestamp < PENDING_TTL)) pending with hV
  set S2 := List.filter (fun lp => decide (¬ existsOnServer serverItems lp = true)) V with hS2
  have hv2 : List.filter (fun p => decide (now - p.timestamp < PENDING_TTL)) S2 = S2 := by
    rw [List.filter_eq_self]
    intro lp hlp
    rw [hS2] at hlp
    have h1 : lp ∈ V := List.mem_of_mem_filter hlp
    rw [hV] at h1
    exact (List.mem_filter.mp h1).2
  have he2 : List.filter (fun lp => decide (¬ existsOnServer serverItems lp = true)) S2
      = S2 := by
    rw [List.filter_eq_self]
    intro lp hlp
    rw [hS2] at hlp
    exact (List.mem_filter.mp hlp).2
  rw [hv2, he2]
  congr 1
  rw [hS2]
  exact mergeFold_filter serverItems V serverItems

/-- The like reconcile never changes a post's id. -/
theorem applyLikeOverride_postId (viewer : String)
    (m : List (String × OverrideEntry)) (post : ProjPost) :
    (applyLikeOverride viewer m post).1.postId = post.postId := by
  unfold applyLikeOverride
  rcases lookupOv m post.postId with _ | ov
  · rfl
  · dsimp only
    by_cases h1 : ov.status ∧ (post.likes.any fun l => l.userId = viewer) = true
    · rw [if_pos h1]
    · rw [if_neg h1]
      by_cases h2 : ¬ ov.status ∧ ¬ (post.likes.any fun l => l.userId = viewer) = true
      · rw [if_pos h2]
      · rw [if_neg h2]
        by_cases h3 : ov.status = true
        · rw [if_pos h3]
        · rw [if_neg h3]

/-- The like pass preserves the list of post ids. -/
theorem likesPassCore_postIds (viewer : String) :
    ∀ (posts : List ProjPost) (m : List (String × OverrideEntry)),
      (likesPassCore viewer posts m).1.map (·.postId) = posts.map (·.postId) := by
  intro posts
  induction posts with
  | nil => intro m; simp [likesPassCore]
  | cons p rest ih =>
    intro m
    rw [likesPassCore_cons]
    dsimp only
    rw [List.map_cons, List.map_cons, applyLikeOverride_postId, ih]

/-- Assembly is unchanged by replacing the pending comments with their pruned
survivors, provided every pending comment is unexpired and is authored by a
viewer who is not self-blocked: the injection filter (per-post, block-filtered,
no tombstone window) and the prune filter then select the same entries. -/
theorem assemblePost_stable (now : Int) (st st1 : OverlayState) (snap : Snapshot)
    (viewer : String) (item : FeedItem)
    (hd : st1.deletedPostIds = st.deletedPostIds)
    (hdc : st1.deletedCommentIds = st.deletedCommentIds)
    (hpc : st1.pendingComments = prunePendingComments now st snap)
    (hexp : ∀ pc ∈ st.pendingComments, now - pc.timestamp < 300000)
    (hown : ∀ pc ∈ st.pendingComments, pc.userId = viewer)
    (hself : blocksB snap.blocks viewer viewer = false) :
    assemblePost now st1 snap viewer item = assemblePost now st snap viewer item := by
  unfold assemblePost
  rw [hd, hdc, hpc]
  dsimp only
  congr 1
  unfold prunePendingComments
  rw [List.filter_filter, List.filter_filter, List.filter_filter]
  congr 1
  congr 1
  apply List.filter_congr
  intro pc hpcmem
  by_cases hpost : pc.postId = item.postId
  · simp only [hpost]
    simp
    intro hnomatch
    refine ⟨?_, hexp pc hpcmem⟩
    intro row hrow hnotdel hu ht hp
    have huv : row.userID = viewer := hu.trans (hown pc hpcmem)
    have hx : (⟨some row.commentID, some row.postID, row.userID, row.commentText,
        row.timestamp⟩ : ProjComment) ∈
        commentsOfPost st.deletedCommentIds snap.comments item.postId :=
      (mem_commentsOfPost st.deletedCommentIds snap.comments item.postId _).mpr
        ⟨row, hrow, hnotdel, hp, rfl⟩
    refine absurd ht (hnomatch _ hx ?_ ?_ hu)
    · dsimp only
      rw [huv]
      exact hself
    · dsimp only
      rw [huv]
      exact hself
  · have hd0 : decide (pc.postId = item.postId) = false := by simp [hpost]
    rw [hd0]
    simp

/-- The posts of the normal projection are unchanged when the overlay is
replaced by its post-merge successor (same tombstones, survivors as pending
posts, pruned pending comments), under the comment-alignment hypotheses. -/
theorem normalProjection_posts_stable (decode : String → Option String) (now : Int)
    (snap : Snapshot) (viewer banner banner' : String) (st st1 : OverlayState)
    (hd : st1.deletedPostIds = st.deletedPostIds)
    (hdc : st1.deletedCommentIds = st.deletedCommentIds)
    (hlp : st1.localPendingPosts =
      (mergePendingPosts now st.localPendingPosts (serverFeedItems now st snap viewer)).2)
    (hpc : st1.pendingComments = prunePendingComments now st snap)
    (hexp : ∀ pc ∈ st.pendingComments, now - pc.timestamp < 300000)
    (hown : ∀ pc ∈ st.pendingComments, pc.userId = viewer)
    (hself : blocksB snap.blocks viewer viewer = false) :
    (normalProjection decode now st1 snap viewer banner').1.posts =
      (normalProjection decode now st snap viewer banner).1.posts := by
  unfold normalProjection
  dsimp only
  rw [serverFeedItems_congr now st st1 snap viewer hd]
  rw [hlp, mergePendingPosts_idem]
  congr 1
  apply List.map_congr_left
  intro pair _
  exact assemblePost_stable now st st1 snap viewer pair.2 hd hdc hpc hexp hown hself

/-- After the merge, the `missingPending` re-check contributes nothing, so the
cycle's posts are exactly the like-reconciled projection. -/
theorem okBody_posts (decode : String → Option String) (now : Int) (snap : Snapshot)
    (viewer : String) (s : AppState) :
    (okBody decode now snap viewer s).posts =
      (applyOptimisticUpdates now viewer
        (normalProjection decode now s.overlay snap viewer (bannerOf snap)).1.posts
        s.currentUserFollowingList
        (normalProjection decode now s.overlay snap viewer (bannerOf snap)).2).1 := by
  unfold okBody
  dsimp only
  rw [missingPending_nil]
  rfl

/-! # Claim theorems -/

/-- C6: For every post and viewer, the projected feed includes the post iff:
the author exists, is not banned, is not blocked by the viewer and does not
block the viewer; and either the post is the viewer's own, or (for a
private-account author) viewer and author mutually follow each other, or
(for a public author) the author's visibility policy admits the viewer —
Everyone: always; Followers: iff the viewer follows the author; Friends: iff
the follow is mutual.  (Stated for a non-tombstoned post with no pending
posts in the overlay and a policy among the three documented values.) -/
theorem C6_feed_visibility_filter :
    ∀ (decode : String → Option String) (now : Int) (st : OverlayState)
      (snap : Snapshot) (viewer banner : String) (p : PostRow),
      p ∈ snap.posts →
      (snap.posts.map (·.postID)).Nodup →
      p.postID ∉ st.deletedPostIds →
      st.localPendingPosts = [] →
      (∀ a, accountFor snap.accounts p.userID = some a →
        postVisibilityOf a = "Everyone" ∨ postVisibilityOf a = "Followers" ∨
          postVisibilityOf a = "Friends") →
      (p.postID ∈ (normalProjection decode now st snap viewer banner).1.posts.map (·.postId) ↔
        ∃ a, accountFor snap.accounts p.userID = some a ∧
          isBannedNow now snap.bans a.username = false ∧
          blocksB snap.blocks viewer p.userID = false ∧
          blocksB snap.blocks p.userID viewer = false ∧
          (p.userID = viewer ∨
           (profilePrivacyOf a = "private" ∧ p.userID ∈ followingOf snap.followers viewer ∧
             viewer ∈ followingOf snap.followers p.userID) ∨
           (profilePrivacyOf a ≠ "private" ∧
             (postVisibilityOf a = "Everyone" ∨
              (postVisibilityOf a = "Followers" ∧ p.userID ∈ followingOf snap.followers viewer) ∨
              (postVisibilityOf a = "Friends" ∧ p.userID ∈ followingOf snap.followers viewer ∧
                viewer ∈ followingOf snap.followers p.userID))))) := by
  intro decode now st snap viewer banner p hp hnodup hdel hpending hpol
  rw [mem_normalProjection_postIds, hpending]
  simp only [List.not_mem_nil, false_and, exists_false, or_false,
    List.mem_nil_iff]
  rw [mem_itemKeys_serverFeedItems]
  rw [← passesFeedFilter_spec now st snap viewer p hdel hpol]
  constructor
  · rintro ⟨row, hrow, hid, hpass⟩
    have heq : row = p := List.inj_on_of_nodup_map hnodup hrow hp hid
    rw [← heq]
    exact hpass
  · intro hpass
    exact ⟨p, hp, rfl, hpass⟩

/-- Concrete snapshot for the C6 witness: author `b` has a public account
with the `Followers` policy and viewer `v` follows `b`. -/
def snapC6 : Snapshot :=
  { accounts := [{ userID := "b", username := "bee", displayName := "Bee",
                   firePostVisibility := "Followers" }],
    posts := [⟨"p1", "b", "hello", 5, "FALSE"⟩],
    followers := [⟨"v", "b"⟩] }

/-- Witness for C6: the `Followers`-policy post of a followed author is in
the projected feed, via the visibility characterization. -/
theorem C6_feed_visibility_filter_witness :
    ("p1" : String) ∈
      ((normalProjection (fun _ => none) 0 {} snapC6 "v" "").1.posts.map (·.postId)) :=
  (C6_feed_visibility_filter (fun _ => none) 0 {} snapC6 "v" ""
      ⟨"p1", "b", "hello", 5, "FALSE"⟩ (by decide) (by decide) (by decide) rfl
      (fun a ha => by
        have h2 : accountFor snapC6.accounts "b" =
            some { userID := "b", username := "bee", displayName := "Bee",
                   firePostVisibility := "Followers" } := by decide
        rw [h2] at ha
        injection ha with ha
        rw [← ha]
        decide)).mpr
    ⟨{ userID := "b", username := "bee", displayName := "Bee",
       firePostVisibility := "Followers" },
     by decide, by decide, by decide, by decide,
     Or.inr (Or.inr ⟨by decide, Or.inr (Or.inl ⟨by decide, by decide⟩)⟩)⟩

/-- Concrete state for the C4 counterexample: one fresh pending comment
(written just now) and one server comment by the same author with the same
text on the same post whose timestamp is about 11.6 days away. -/
def stC4 : OverlayState := { pendingComments := [⟨"p1", "u1", "hello", 0⟩] }

def snapC4 : Snapshot := { comments := [⟨"c9", "p1", "u1", "hello", -1000000000⟩] }

/-- C4 counterexample: the pending comment is unexpired and no server
comment matches it within any 5-minute timestamp window (the only candidate
is about 11.6 days away), yet the merge drops it — the comment match
compares only author id, text and post id, never timestamps. -/
theorem C4_comment_match_has_no_time_window_counterexample :
    (normalProjection (fun _ => none) 0 stC4 snapC4 "u1" "").2.pendingComments = [] ∧
    ((-1000000000 : Int) - 0).natAbs ≥ 300000 ∧
    ((0 : Int) - 0 < 300000) := by
  refine ⟨by decide, by decide, by decide⟩

/-- C4 (amended): during merge-on-read, a pending post (unexpired) is
dropped from the pending set iff some projected server post matches it by
author id and content with timestamps within the 15-minute tolerance window,
and an unmatched one is injected into the merged feed; a pending comment is
dropped iff some (non-tombstoned) server comment matches it by author id,
comment text and post id — with NO timestamp tolerance — or the entry is
older than 5 minutes; an entry unmatched in that sense is kept and injected
into its post's comment list. -/
theorem C4_pending_merge_matching :
    (∀ (decode : String → Option String) (now : Int) (st : OverlayState)
       (snap : Snapshot) (viewer banner : String) (lp : PendingPost),
       lp ∈ st.localPendingPosts → now - lp.timestamp < PENDING_TTL →
       ((lp ∉ (normalProjection decode now st snap viewer banner).2.localPendingPosts ↔
          ∃ it ∈ serverFeedItems now st snap viewer,
            it.2.authorId = lp.userId ∧ it.2.postContent = lp.postContent ∧
            (it.2.timestamp - lp.timestamp).natAbs < 900000) ∧
        ((¬ ∃ it ∈ serverFeedItems now st snap viewer,
            it.2.authorId = lp.userId ∧ it.2.postContent = lp.postContent ∧
            (it.2.timestamp - lp.timestamp).natAbs < 900000) →
          lp.postId ∈
            (normalProjection decode now st snap viewer banner).1.posts.map (·.postId)))) ∧
    (∀ (decode : String → Option String) (now : Int) (st : OverlayState)
       (snap : Snapshot) (viewer banner : String) (pc : PendingComment),
       pc ∈ st.pendingComments →
       ((pc ∉ (normalProjection decode now st snap viewer banner).2.pendingComments ↔
          ((∃ sc ∈ snap.comments, sc.commentID ∉ st.deletedCommentIds ∧
              sc.userID = pc.userId ∧ sc.commentText = pc.commentText ∧
              sc.postID = pc.postId) ∨ ¬ (now - pc.timestamp < 300000))) ∧
        ((¬ ∃ sc ∈ snap.comments, sc.commentID ∉ st.deletedCommentIds ∧
            sc.userID = pc.userId ∧ sc.commentText = pc.commentText ∧
            sc.postID = pc.postId) →
          ∀ post ∈ (normalProjection decode now st snap viewer banner).1.posts,
            post.postId = pc.postId →
            (⟨none, some pc.postId, pc.userId, pc.commentText, pc.timestamp⟩ :
              ProjComment) ∈ post.comments))) := by
  constructor
  · intro decode now st snap viewer banner lp hmem hvalid
    constructor
    · rw [normalProjection_overlay]
      dsimp only
      rw [mem_mergePendingPosts_snd, ← existsOnServer_iff]
      constructor
      · intro hx
        rcases hb : existsOnServer (serverFeedItems now st snap viewer) lp with _ | _
        · exact absurd ⟨hmem, hvalid, hb⟩ hx
        · rfl
      · intro hx hy
        rw [hx] at hy
        exact absurd hy.2.2 (by simp)
    · intro hx
      rw [← existsOnServer_iff] at hx
      have hb : existsOnServer (serverFeedItems now st snap viewer) lp = false := by
        rcases hb2 : existsOnServer (serverFeedItems now st snap viewer) lp with _ | _
        · rfl
        · exact absurd hb2 hx
      rw [mem_normalProjection_postIds]
      exact Or.inr ⟨lp, hmem, hvalid, hb, rfl⟩
  · intro decode now st snap viewer banner pc hmem
    constructor
    · rw [normalProjection_overlay]
      dsimp only
      unfold prunePendingComments
      constructor
      · intro hx
        by_contra hy
        rw [not_or, not_not] at hy
        exact hx (List.mem_filter.mpr ⟨hmem, by
          simp only [decide_eq_true_eq]
          exact ⟨hy.1, by omega⟩⟩)
      · intro hy hx
        rw [List.mem_filter] at hx
        have := hx.2
        simp only [decide_eq_true_eq] at this
        rcases hy with hy | hy
        · exact this.1 hy
        · exact hy this.2
    · intro hnomatch post hpost hpid
      rw [mem_normalProjection_posts] at hpost
      obtain ⟨pair, _, hpost⟩ := hpost
      have hitem : pair.2.postId = pc.postId := by
        rw [hpost] at hpid
        exact hpid
      rw [hpost]
      unfold assemblePost
      dsimp only
      rw [List.mem_append]
      right
      rw [List.mem_map]
      refine ⟨pc, ?_, rfl⟩
      rw [List.mem_filter]
      constructor
      · rw [List.mem_filter]
        refine ⟨hmem, by simp [hitem]⟩
      · simp only [decide_eq_true_eq]
        rintro ⟨sc, hsc, hscu, hsct⟩
        rw [List.mem_filter] at hsc
        rw [mem_commentsOfPost] at *
        obtain ⟨row, hrow, hrdel, hrpid, hrc⟩ := hsc.1
        refine hnomatch ⟨row, hrow, hrdel, ?_, ?_, ?_⟩
        · rw [← hscu, hrc]
        · rw [← hsct, hrc]
        · rw [hrpid, hitem]

/-- Concrete state for the C4 witness: an unmatched fresh pending post and an
unmatched fresh pending comment over a snapshot holding one server post. -/
def stC4w : OverlayState :=
  { localPendingPosts := [⟨"tp", "u1", "note", false, 0⟩],
    pendingComments := [⟨"p1", "u1", "fresh", 0⟩] }

def snapC4w : Snapshot :=
  { accounts := [{ userID := "u1", username := "u1", displayName := "U1" }],
    posts := [⟨"p1", "u1", "hello", 0, "FALSE"⟩] }

/-- Witness for C4: the unmatched pending post is injected into the merged
feed, and the unmatched, unexpired pending comment survives the merge. -/
theorem C4_pending_merge_matching_witness :
    ("tp" : String) ∈
      (normalProjection (fun _ => none) 0 stC4w snapC4w "u1" "").1.posts.map (·.postId) ∧
    (⟨"p1", "u1", "fresh", 0⟩ : PendingComment) ∈
      (normalProjection (fun _ => none) 0 stC4w snapC4w "u1" "").2.pendingComments :=
  ⟨(C4_pending_merge_matching.1 (fun _ => none) 0 stC4w snapC4w "u1" ""
      ⟨"tp", "u1", "note", false, 0⟩ (by decide) (by decide)).2 (by decide),
   by
     by_contra hx
     exact absurd
       ((C4_pending_merge_matching.2 (fun _ => none) 0 stC4w snapC4w "u1" ""
         ⟨"p1", "u1", "fresh", 0⟩ (by decide)).1.mp hx) (by decide)⟩

/-- C1 (amended): a failed toggle-like or toggle-follow write reverts fully —
the pending override entry is removed and the viewer's like/follow membership
returns to its pre-action value; a failed add-comment write removes the
optimistic comment from the projection but leaves the pending-comment entry
in the overlay; a create-post write is dispatched without `await`, so its
failure is never observed: the pending post stays in the overlay and the next
projection still includes it (while unexpired and unmatched). -/
theorem C1_write_failure_handling :
    (∀ (now : Int) (viewer pid : String) (s : AppState) (post : ProjPost),
       s.posts.find? (fun p => p.postId = pid) = some post →
       lookupOv (handlers.toggleLike now viewer pid true s).overlay.pendingLikes pid
           = none ∧
       (∀ p2 ∈ (handlers.toggleLike now viewer pid true s).posts, p2.postId = pid →
         (p2.likes.any fun l => l.userId = viewer) =
           (post.likes.any fun l => l.userId = viewer))) ∧
    (∀ (now : Int) (followingId : String) (s : AppState),
       lookupOv (handlers.toggleFollow now followingId true s).overlay.pendingFollows
           followingId = none ∧
       (followingId ∈ (handlers.toggleFollow now followingId true s).currentUserFollowingList ↔
         followingId ∈ s.currentUserFollowingList)) ∧
    (∀ (now : Int) (viewer pid text : String) (s : AppState),
       (s.posts.any fun p => p.postId = pid) = true →
       (∀ p ∈ s.posts, ∀ c ∈ p.comments, c.commentId ≠ some ("temp_" ++ toString now)) →
       (handlers.addComment now viewer pid text true s).posts = s.posts ∧
       (handlers.addComment now viewer pid text true s).overlay.pendingComments =
         s.overlay.pendingComments ++ [⟨pid, viewer, text, now⟩]) ∧
    (∀ (now : Int) (viewer content : String) (s : AppState),
       (handlers.createPost now viewer content s).overlay.localPendingPosts =
         ⟨"temp_" ++ toString now, viewer, content, false, now⟩ ::
           s.overlay.localPendingPosts ∧
       (∀ (decode : String → Option String) (now2 : Int) (snap : Snapshot)
          (banner : String),
         now2 - now < PENDING_TTL →
         (¬ ∃ it ∈ serverFeedItems now2
             (handlers.createPost now viewer content s).overlay snap viewer,
           it.2.authorId = viewer ∧ it.2.postContent = content ∧
           (it.2.timestamp - now).natAbs < 900000) →
         ("temp_" ++ toString now) ∈
           (normalProjection decode now2
             (handlers.createPost now viewer content s).overlay snap viewer
             banner).1.posts.map (·.postId))) := by
  refine ⟨?_, ?_, ?_, ?_⟩
  · intro now viewer pid s post hfind
    unfold handlers.toggleLike
    rw [hfind]
    dsimp only
    rw [if_neg (by simp)]
    dsimp only
    refine ⟨lookupOv_removeOv_self _ _, ?_⟩
    intro p2 hp2 hpid
    rw [List.map_map] at hp2
    rw [List.mem_map] at hp2
    obtain ⟨p, hp, hp2eq⟩ := hp2
    by_cases hl : (post.likes.any fun l => l.userId = viewer) = true
    · rw [hl]
      simp only [hl, not_true_eq_false] at hp2eq
      subst hp2eq
      by_cases hppid : p.postId = pid
      · simp [Function.comp, hppid, hl]
      · simp only [Function.comp, if_neg hppid] at hpid ⊢
        exact absurd hpid hppid
    · rw [Bool.not_eq_true] at hl
      rw [hl]
      simp only [hl, Bool.false_eq_true, not_false_eq_true] at hp2eq
      subst hp2eq
      by_cases hppid : p.postId = pid
      · simp only [Function.comp, hppid, hl, if_pos rfl, Bool.false_eq_true,
          not_false_eq_true, if_true, if_false, ite_true, ite_false]
        have := any_viewer_filter viewer (p.likes ++ [({ likeId := none, userId := viewer } : LikeEntry)])
        simp only [ite_true, if_true, ite_false, if_false] at this ⊢
        exact this
      · simp only [Function.comp, if_neg hppid] at hpid ⊢
        exact absurd hpid hppid
  · intro now followingId s
    unfold handlers.toggleFollow
    dsimp only
    rw [if_neg (by simp)]
    dsimp only
    refine ⟨lookupOv_removeOv_self _ _, ?_⟩
    by_cases hmem : followingId ∈ s.currentUserFollowingList
    · simp [hmem]
    · simp [hmem]
  · intro now viewer pid text s hpost hfresh
    unfold handlers.addComment
    dsimp only
    rw [if_pos hpost, if_neg (by simp)]
    dsimp only
    constructor
    · rw [List.map_map]
      refine (List.map_congr_left ?_).trans (List.map_id s.posts)
      intro p hp
      by_cases hppid : p.postId = pid
      · simp only [Function.comp, hppid, if_pos rfl, id_eq, ite_true, if_true]
        have hfilter : (p.comments ++
            [({ commentId := some ("temp_" ++ toString now), postId := none,
                userId := viewer, commentText := text, timestamp := now } : ProjComment)]).filter
              (fun c => c.commentId ≠ some ("temp_" ++ toString now)) = p.comments := by
          rw [List.filter_append]
          rw [List.filter_eq_self.mpr, List.filter_cons_of_neg, List.filter_nil,
            List.append_nil]
          · simp
          · intro c hc
            simpa using hfresh p hp c hc
        rw [hfilter, ← hppid]
      · simp only [Function.comp, if_neg hppid, id_eq]
    · rfl
  · intro now viewer content s
    refine ⟨rfl, ?_⟩
    intro decode now2 snap banner hvalid hnomatch
    rw [mem_normalProjection_postIds]
    right
    refine ⟨⟨"temp_" ++ toString now, viewer, content, false, now⟩, ?_, hvalid, ?_, rfl⟩
    · rw [show (handlers.createPost now viewer content s).overlay.localPendingPosts =
        ⟨"temp_" ++ toString now, viewer, content, false, now⟩ ::
          s.overlay.localPendingPosts from rfl]
      exact List.mem_cons_self _ _
    · rcases hb : existsOnServer (serverFeedItems now2
          (handlers.createPost now viewer content s).overlay snap viewer)
          ⟨"temp_" ++ toString now, viewer, content, false, now⟩ with _ | _
      · rfl
      · rw [existsOnServer_iff] at hb
        exact absurd hb hnomatch

def snapC1 : Snapshot :=
  { accounts := [{ userID := "u1", username := "u1", displayName := "U1" }] }

def initState : AppState :=
  { posts := [], currentUserFollowingList := [],
    currentUserFollowersList := [], overlay := {} }

def cyclePosts : CycleResult → List ProjPost
  | .ok s => s.posts
  | _ => []

/-- C1 counterexample: the user creates a post and the dispatched write
fails.  Because the write is dispatched without `await`, the handler state is
independent of the write's outcome; the server snapshot fetched by the next
refresh does not contain the post (its write failed), yet the next projection
still returns the failed post — the pending entry was not reverted and the
post set does not exclude it. -/
theorem C1_createPost_failure_not_reverted_counterexample :
    snapC1.posts = [] ∧
    (cyclePosts (readCycle (fun _ => none) 1000 snapC1 "u1"
        (handlers.createPost 0 "u1" "hi" initState))).map (fun p => p.postId)
      = ["temp_0"] ∧
    (handlers.createPost 0 "u1" "hi" initState).overlay.localPendingPosts =
      [⟨"temp_0", "u1", "hi", false, 0⟩] := by
  refine ⟨rfl, by decide, by decide⟩

def pwC1 : ProjPost :=
  { postId := "p1", authorId := "u2", author := none, postContent := "x",
    timestamp := 0, isStory := false, sortTimestamp := 0, comments := [],
    likes := [{ userId := "u1" }] }

def sC1w : AppState :=
  { posts := [pwC1], currentUserFollowingList := ["u2"],
    currentUserFollowersList := [], overlay := {} }

/-- Witness instantiating the amended write-failure policy on a concrete
one-post state: a failed toggle-like and toggle-follow revert fully, a failed
add-comment restores the posts, and create-post always leaves its pending
entry. -/
theorem C1_write_failure_handling_witness :
    (sC1w.posts.find? (fun p => p.postId = "p1") = some pwC1) ∧
    lookupOv (handlers.toggleLike 100 "u1" "p1" true sC1w).overlay.pendingLikes "p1"
      = none ∧
    lookupOv (handlers.toggleFollow 100 "u2" true sC1w).overlay.pendingFollows "u2"
      = none ∧
    ("u2" ∈ (handlers.toggleFollow 100 "u2" true sC1w).currentUserFollowingList ↔
      "u2" ∈ sC1w.currentUserFollowingList) ∧
    (handlers.addComment 100 "u1" "p1" "hi" true sC1w).posts = sC1w.posts ∧
    (handlers.createPost 100 "u1" "hi" sC1w).overlay.localPendingPosts =
      ⟨"temp_" ++ toString (100 : Int), "u1", "hi", false, 100⟩ ::
        sC1w.overlay.localPendingPosts := by
  refine ⟨by decide,
    (C1_write_failure_handling.1 100 "u1" "p1" sC1w pwC1 (by decide)).1,
    (C1_write_failure_handling.2.1 100 "u2" sC1w).1,
    (C1_write_failure_handling.2.1 100 "u2" sC1w).2,
    (C1_write_failure_handling.2.2.1 100 "u1" "p1" "hi" sC1w (by decide) (by decide)).1,
    (C1_write_failure_handling.2.2.2 100 "u1" "hi" sC1w).1⟩

def sC2 : AppState :=
  { posts := [], currentUserFollowingList := ["B"],
    currentUserFollowersList := [],
    overlay := { pendingFollows := [("B", ⟨true, 0⟩)] } }

def snapC2 : Snapshot :=
  { accounts := [{ userID := "A", username := "A", displayName := "A" }] }

/-- C2: the follow-override reconciliation runs against the STALE
pre-refresh following list (`applyOptimisticUpdates` is called at
script.js:1804 before `state.currentUserFollowingList` is replaced at
line 1817, and reads/mutates that old value), and the fresh server list then
overwrites whatever the reconciliation forced.  Concretely: the viewer `A`
has an unexpired pending follow override for `B` with intended state
`true`; the freshly projected server state says `A` does not follow `B`
(they differ), yet the merge deletes the override and the final following
list is the bare server list without `B` — the projection is neither forced
to the intended state nor is the override kept. -/
theorem C2_follow_reconciliation_stale_list :
    ((1000 : Int) - 0 ≤ OVERRIDE_TIMEOUT) ∧
    sC2.overlay.pendingFollows = [("B", ⟨true, 0⟩)] ∧
    "B" ∉ followingOf snapC2.followers "A" ∧
    readCycle (fun _ => none) 1000 snapC2 "A" sC2 =
      .ok { posts := [], currentUserFollowingList := [],
            currentUserFollowersList := [], overlay := {} } := by
  refine ⟨by decide, rfl, by decide, by decide⟩

/-- C9 (amended): running two refresh cycles over the same server snapshot
with no intervening local mutation yields an identical projected feed —
provided every pending comment is unexpired and authored by the (not
self-blocked) viewer, and the pending-like override keys are duplicate-free.
The second cycle's post list (including each post's comment list and like
set) equals the first's, and no post id appears twice.  Without the
unexpired-pending-comment hypothesis the property fails: an expired unmatched
pending comment is injected into the first merge (the injection reads the
pending set before it is pruned) but is gone from the second. -/
theorem C9_merge_idempotent (decode : String → Option String) (now : Int)
    (snap : Snapshot) (viewer : String) (s0 s1 s2 : AppState)
    (hexp : ∀ pc ∈ s0.overlay.pendingComments, now - pc.timestamp < 300000)
    (hown : ∀ pc ∈ s0.overlay.pendingComments, pc.userId = viewer)
    (hself : blocksB snap.blocks viewer viewer = false)
    (hlk : (s0.overlay.pendingLikes.map (·.1)).Nodup)
    (h1 : readCycle decode now snap viewer s0 = .ok s1)
    (h2 : readCycle decode now snap viewer s1 = .ok s2) :
    s2.posts = s1.posts ∧ (s1.posts.map (·.postId)).Nodup := by
  have hs1 := readCycle_ok_spec decode now snap viewer s0 s1 h1
  subst hs1
  have hs2 := readCycle_ok_spec decode now snap viewer _ s2 h2
  subst hs2
  simp only [okBody_posts, applyOptimisticUpdates_eq]
  have hposts : (normalProjection decode now (okBody decode now snap viewer s0).overlay
      snap viewer (bannerOf snap)).1.posts =
      (normalProjection decode now s0.overlay snap viewer (bannerOf snap)).1.posts :=
    normalProjection_posts_stable decode now snap viewer (bannerOf snap) (bannerOf snap)
      s0.overlay ((okBody decode now snap viewer s0).overlay)
      rfl rfl rfl rfl hexp hown hself
  have hpl1 : (normalProjection decode now (okBody decode now snap viewer s0).overlay
      snap viewer (bannerOf snap)).2.pendingLikes =
      (likesPassCore viewer
        (normalProjection decode now s0.overlay snap viewer (bannerOf snap)).1.posts
        (s0.overlay.pendingLikes.filter fun e =>
          decide (¬ (now - e.2.timestamp > OVERRIDE_TIMEOUT)))).2 := rfl
  have hpl0 : (normalProjection decode now s0.overlay snap viewer
      (bannerOf snap)).2.pendingLikes = s0.overlay.pendingLikes := rfl
  rw [hposts, hpl1, hpl0]
  have hm0 : ((s0.overlay.pendingLikes.filter fun e =>
      decide (¬ (now - e.2.timestamp > OVERRIDE_TIMEOUT))).map (·.1)).Nodup :=
    List.Sublist.nodup (List.Sublist.map _ (List.filter_sublist _)) hlk
  have hpn : (((normalProjection decode now s0.overlay snap viewer
      (bannerOf snap)).1.posts).map (·.postId)).Nodup := by
    have hperm := normalProjection_postIds_perm decode now s0.overlay snap viewer
      (bannerOf snap)
    have hnd := (mergePendingPosts_nodup_consistent now s0.overlay.localPendingPosts
      (serverFeedItems now s0.overlay snap viewer)
      (serverFeedItems_nodup_consistent now s0.overlay snap viewer).1
      (serverFeedItems_nodup_consistent now s0.overlay snap viewer).2).1
    exact hperm.nodup_iff.mpr hnd
  have hspec := likesPassCore_spec viewer
    (normalProjection decode now s0.overlay snap viewer (bannerOf snap)).1.posts
    (s0.overlay.pendingLikes.filter fun e =>
      decide (¬ (now - e.2.timestamp > OVERRIDE_TIMEOUT))) hm0 hpn
  have hfe : ((likesPassCore viewer
      (normalProjection decode now s0.overlay snap viewer (bannerOf snap)).1.posts
      (s0.overlay.pendingLikes.filter fun e =>
        decide (¬ (now - e.2.timestamp > OVERRIDE_TIMEOUT)))).2.filter fun e =>
          decide (¬ (now - e.2.timestamp > OVERRIDE_TIMEOUT))) =
      (likesPassCore viewer
        (normalProjection decode now s0.overlay snap viewer (bannerOf snap)).1.posts
        (s0.overlay.pendingLikes.filter fun e =>
          decide (¬ (now - e.2.timestamp > OVERRIDE_TIMEOUT)))).2 := by
    rw [List.filter_eq_self]
    intro e he
    exact (List.mem_filter.mp (likesPassCore_map_subset viewer _ _ e he)).2
  rw [hfe, hspec.2.2.2.2]
  exact ⟨rfl, by rw [likesPassCore_postIds]; exact hpn⟩

def snapC9 : Snapshot :=
  { accounts := [{ userID := "u1", username := "u1", displayName := "U1" }],
    posts := [{ postID := "p1", userID := "u1", postContent := "x", timestamp := 0 }] }

def sC9 : AppState :=
  { posts := [], currentUserFollowingList := [], currentUserFollowersList := [],
    overlay := { pendingComments := [⟨"p1", "u1", "old words", 0⟩] } }

def stepC9 (s : AppState) : CycleResult :=
  readCycle (fun _ => none) 1000000 snapC9 "u1" s

def nextC9 : CycleResult → AppState
  | .ok s => s
  | _ => initState

/-- C9 counterexample: merging the same snapshot twice with no intervening
mutation changes the feed.  The overlay holds one pending comment on `p1`
that is expired (age 1000000 ms > 300000 ms) and unmatched on the server;
the first merge injects it into `p1`'s comment list (the injection loop reads
the pending set before its TTL pruning) and then prunes the entry, so the
second merge of the very same snapshot yields `p1` with no comments. -/
theorem C9_double_merge_differs_counterexample :
    (cyclePosts (stepC9 sC9)).map (fun p => p.comments.length) = [1] ∧
    (cyclePosts (stepC9 (nextC9 (stepC9 sC9)))).map (fun p => p.comments.length) = [0] ∧
    cyclePosts (stepC9 (nextC9 (stepC9 sC9))) ≠ cyclePosts (stepC9 sC9) := by
  refine ⟨by decide, by decide, by decide⟩

def snapC9w : Snapshot :=
  { accounts := [{ userID := "u1", username := "u1", displayName := "U1" }],
    posts := [{ postID := "p1", userID := "u1", postContent := "x", timestamp := 0 }] }

def stepC9w (s : AppState) : CycleResult :=
  readCycle (fun _ => none) 1000 snapC9w "u1" s

def s1C9w : AppState := nextC9 (stepC9w initState)

def s2C9w : AppState := nextC9 (stepC9w s1C9w)

/-- Witness instantiating the amended idempotence on a concrete snapshot with
one post: both cycles complete normally and the second cycle reproduces the
first's post list, whose ids are duplicate-free. -/
theorem C9_merge_idempotent_witness :
    stepC9w initState = .ok s1C9w ∧
    stepC9w s1C9w = .ok s2C9w ∧
    s2C9w.posts = s1C9w.posts ∧
    (s1C9w.posts.map (·.postId)).Nodup := by
  have h1 : stepC9w initState = .ok s1C9w := by decide
  have h2 : stepC9w s1C9w = .ok s2C9w := by decide
  have hmain := C9_merge_idempotent (fun _ => none) 1000 snapC9w "u1"
    initState s1C9w s2C9w (by decide) (by decide) (by decide) (by decide) h1 h2
  exact ⟨h1, h2, hmain.1, hmain.2⟩

/-- C5: Every pending overlay entry independently expires and is removed,
with no reversal of its optimistic effect, after a fixed horizon: like and
follow overrides after 10 minutes (the expired entry is gone from the
override maps and neither the post's likes nor the following list are
touched at its key), pending posts after 15 minutes (gone from the overlay
and — if no server row or other pending entry shares the id — absent from
the merged feed regardless of confirmation state), pending comments after
5 minutes (gone from the overlay). -/
theorem C5_pending_ttl_expiry :
    OVERRIDE_TIMEOUT = 600000 ∧ PENDING_TTL = 900000 ∧
    (∀ (now : Int) (viewer : String) (posts : List ProjPost) (fl : List String)
       (st : OverlayState) (pid : String) (ov : OverrideEntry),
       (st.pendingLikes.map (·.1)).Nodup →
       (pid, ov) ∈ st.pendingLikes →
       now - ov.timestamp > OVERRIDE_TIMEOUT →
       lookupOv (applyOptimisticUpdates now viewer posts fl st).2.2.pendingLikes pid
           = none ∧
       (∀ p ∈ posts, p.postId = pid →
          p ∈ (applyOptimisticUpdates now viewer posts fl st).1)) ∧
    (∀ (now : Int) (viewer : String) (posts : List ProjPost) (fl : List String)
       (st : OverlayState) (uid : String) (ov : OverrideEntry),
       (st.pendingFollows.map (·.1)).Nodup →
       (uid, ov) ∈ st.pendingFollows →
       now - ov.timestamp > OVERRIDE_TIMEOUT →
       lookupOv (applyOptimisticUpdates now viewer posts fl st).2.2.pendingFollows uid
           = none ∧
       (uid ∈ (applyOptimisticUpdates now viewer posts fl st).2.1 ↔ uid ∈ fl)) ∧
    (∀ (decode : String → Option String) (now : Int) (st : OverlayState)
       (snap : Snapshot) (viewer banner : String) (lp : PendingPost),
       lp ∈ st.localPendingPosts →
       now - lp.timestamp ≥ PENDING_TTL →
       lp ∉ (normalProjection decode now st snap viewer banner).2.localPendingPosts ∧
       (lp.postId ∉ snap.posts.map (·.postID) →
        (∀ lp2 ∈ st.localPendingPosts, lp2.postId = lp.postId → lp2 = lp) →
        lp.postId ∉
          (normalProjection decode now st snap viewer banner).1.posts.map (·.postId))) ∧
    (∀ (decode : String → Option String) (now : Int) (st : OverlayState)
       (snap : Snapshot) (viewer banner : String) (pc : PendingComment),
       now - pc.timestamp ≥ 300000 →
       pc ∉ (normalProjection decode now st snap viewer banner).2.pendingComments) := by
  refine ⟨rfl, rfl, ?_, ?_, ?_, ?_⟩
  · intro now viewer posts fl st pid ov hnodup hmem hexp
    rw [applyOptimisticUpdates_eq]
    dsimp only
    have hnokey := cleanup_no_key now st.pendingLikes pid ov hnodup hmem hexp
    have hnone : lookupOv (st.pendingLikes.filter fun e =>
        decide (¬ (now - e.2.timestamp > OVERRIDE_TIMEOUT))) pid = none := by
      rw [lookupOv_eq_none_iff]
      exact hnokey
    constructor
    · rw [lookupOv_eq_none_iff]
      intro e he
      exact hnokey e (likesPassCore_map_subset viewer posts _ e he)
    · intro p hp hpid
      refine likesPassCore_mem_of_lookup_none viewer posts _ p hp ?_
      rw [hpid]
      exact hnone
  · intro now viewer posts fl st uid ov hnodup hmem hexp
    rw [applyOptimisticUpdates_eq]
    dsimp only
    have hnokey := cleanup_no_key now st.pendingFollows uid ov hnodup hmem hexp
    constructor
    · rw [lookupOv_eq_none_iff]
      intro e he
      exact hnokey e (followsPass_kept_subset _ fl e he)
    · exact followsPass_mem_ne _ fl uid hnokey
  · intro decode now st snap viewer banner lp hmem hexp
    rw [normalProjection_overlay]
    dsimp only
    constructor
    · intro hx
      rw [mem_mergePendingPosts_snd] at hx
      omega
    · intro hnosrv huniq hx
      rw [mem_normalProjection_postIds] at hx
      rcases hx with hx | ⟨lp2, hlp2, hvalid, _, hid⟩
      · rw [mem_itemKeys_serverFeedItems] at hx
        obtain ⟨row, hrow, hrid, _⟩ := hx
        exact hnosrv (hrid ▸ List.mem_map_of_mem (·.postID) hrow)
      · have : lp2 = lp := huniq lp2 hlp2 hid
        subst this
        omega
  · intro decode now st snap viewer banner pc hexp hx
    rw [normalProjection_overlay] at hx
    dsimp only at hx
    unfold prunePendingComments at hx
    rw [List.mem_filter] at hx
    have := hx.2
    simp only [decide_eq_true_eq] at this
    omega

/-- Witness for C5: a 10-minute-stale like override and follow override, a
15-minute-stale pending post and a 5-minute-stale pending comment are all
purged by one merge over an empty snapshot. -/
theorem C5_pending_ttl_expiry_witness :
    (lookupOv (applyOptimisticUpdates 10000000 "u" [] []
        { pendingLikes := [("p1", ⟨true, 0⟩)],
          pendingFollows := [("B", ⟨true, 0⟩)] }).2.2.pendingLikes "p1" = none ∧
      (∀ p ∈ ([] : List ProjPost), p.postId = "p1" →
        p ∈ (applyOptimisticUpdates 10000000 "u" [] []
          { pendingLikes := [("p1", ⟨true, 0⟩)],
            pendingFollows := [("B", ⟨true, 0⟩)] }).1)) ∧
    (("tp" : String) ∉
      (normalProjection (fun _ => none) 10000000
        { localPendingPosts := [⟨"tp", "u", "x", false, 0⟩] } {} "u" "").1.posts.map
          (·.postId)) ∧
    (⟨"p1", "u", "c", 0⟩ : PendingComment) ∉
      (normalProjection (fun _ => none) 10000000
        { pendingComments := [⟨"p1", "u", "c", 0⟩] } {} "u" "").2.pendingComments :=
  ⟨C5_pending_ttl_expiry.2.2.1 10000000 "u" [] []
      { pendingLikes := [("p1", ⟨true, 0⟩)], pendingFollows := [("B", ⟨true, 0⟩)] }
      "p1" ⟨true, 0⟩ (by decide) (by decide) (by decide),
   (C5_pending_ttl_expiry.2.2.2.2.1 (fun _ => none) 10000000
      { localPendingPosts := [⟨"tp", "u", "x", false, 0⟩] } {} "u" ""
      ⟨"tp", "u", "x", false, 0⟩ (by decide) (by decide)).2 (by decide)
      (fun lp2 h2 hid => by
        have : lp2 = ⟨"tp", "u", "x", false, 0⟩ := by simpa using h2
        exact this),
   C5_pending_ttl_expiry.2.2.2.2.2 (fun _ => none) 10000000
      { pendingComments := [⟨"p1", "u", "c", 0⟩] } {} "u" ""
      ⟨"p1", "u", "c", 0⟩ (by decide)⟩

/-- C8: For every tabular snapshot text, the parser takes the first non-blank
line as the header and, for each subsequent data row, skips the row (rather
than failing the whole source) iff its field count is more than double the
header's field count; all other data rows are returned as records keyed by
the header's field names. -/
theorem C8_parse_header_skip_policy :
    ∀ (text first : List Char) (rest : List (List Char)),
      tsvParser.nonblankLines text = first :: rest →
      tsvParser.parse text =
        (rest.filter fun line =>
            decide (¬ (jsSplit '\t' line).length >
              ((jsSplit '\t' first).map jsTrim).length * 2)).map
          fun line =>
            tsvParser.record ((jsSplit '\t' first).map jsTrim) (jsSplit '\t' line) := by
  intro text first rest h
  have hmem : first ∈ tsvParser.nonblankLines text := by
    rw [h]; exact List.mem_cons_self _ _
  have hne : jsTrim first ≠ [] := by
    have := (List.mem_filter.mp hmem).2
    simpa using this
  have hheaders : ¬ ((((jsSplit '\t' first).map jsTrim).all fun s => s = []) = true) := by
    intro hx
    apply hne
    apply jsTrim_eq_nil_of_all_ws
    apply all_ws_of_jsSplit_all_ws
    rw [List.all_eq_true] at hx ⊢
    intro f hf
    have hin : jsTrim f ∈ (jsSplit '\t' first).map jsTrim := List.mem_map_of_mem _ hf
    have hz : jsTrim f = [] := by simpa using hx (jsTrim f) hin
    exact all_ws_of_jsTrim_eq_nil f hz
  simp only [tsvParser.parse, h]
  rw [if_neg hheaders]
  exact filterMap_skip_eq_map_filter _ _ rest

/-- Witness for C8 at a concrete snapshot text: the middle row has five
fields against a two-field header (more than double) and is skipped; the
other rows come back keyed by the header names. -/
theorem C8_parse_header_skip_policy_witness :
    tsvParser.parse ("name\tage\nbob\t12\nx\ty\tz\tw\tq\ncarol\t33".data) =
      ((["bob\t12".data, "x\ty\tz\tw\tq".data, "carol\t33".data].filter fun line =>
          decide (¬ (jsSplit '\t' line).length >
            ((jsSplit '\t' ("name\tage".data)).map jsTrim).length * 2)).map
        fun line =>
          tsvParser.record ((jsSplit '\t' ("name\tage".data)).map jsTrim)
            (jsSplit '\t' line)) ∧
    tsvParser.parse ("name\tage\nbob\t12\nx\ty\tz\tw\tq\ncarol\t33".data) =
      [[("name".data, "bob".data), ("age".data, "12".data)],
       [("name".data, "carol".data), ("age".data, "33".data)]] :=
  ⟨C8_parse_header_skip_policy _ _ _ (by decide), by decide⟩

/-- C10: During a platform-wide outage (the server-status row resolves to
`outage`, case-insensitively), `getPosts` returns the empty outage sentinel
(no posts, no conversations, `currentUserData` marked as outage) for a viewer
whose account row is not flagged admin (or who has no account row), while an
admin viewer receives the normal full projection. -/
theorem C10_outage_gate_admin_exempt :
    ∀ (decode : String → Option String) (now : Int) (st : OverlayState)
      (snap : Snapshot) (viewer : String) (r : ServRow) (rest : List ServRow),
      snap.servInfo = r :: rest →
      jsToLower r.serverStatus = "outage" →
      ((∀ a, snap.accounts.find? (fun x => x.userID = viewer) = some a →
          jsTrue a.isAdmin = false) →
        getPosts decode now st snap viewer = (outageSentinel r.bannerText, st) ∧
        (getPosts decode now st snap viewer).1.posts = [] ∧
        (getPosts decode now st snap viewer).1.conversations = [] ∧
        (getPosts decode now st snap viewer).1.currentUserData = .outageMarker) ∧
      (∀ a, snap.accounts.find? (fun x => x.userID = viewer) = some a →
        jsTrue a.isAdmin = true →
        getPosts decode now st snap viewer =
          normalProjection decode now st snap viewer r.bannerText) := by
  intro decode now st snap viewer r rest hserv hlow
  constructor
  · intro h
    have hgate : getPosts decode now st snap viewer = (outageSentinel r.bannerText, st) := by
      unfold getPosts
      rw [hserv]
      rcases hfind : snap.accounts.find? (fun x => x.userID = viewer) with _ | a
      · simp [hlow]
        intro hx
        rw [hfind] at hx
        exact absurd hx (by simp)
      · simp [hlow]
        intro hx
        simp only [hfind] at hx
        rw [h a hfind] at hx
        exact absurd hx (by simp)
    exact ⟨hgate, by rw [hgate]; rfl, by rw [hgate]; rfl, by rw [hgate]; rfl⟩
  · intro a hfind hadmin
    unfold getPosts
    rw [hserv, hfind]
    simp [hadmin]

/-- Witness for C10: a concrete outage snapshot with a non-admin viewer
yields the sentinel, and the same outage snapshot with an admin viewer yields
the normal projection. -/
theorem C10_outage_gate_admin_exempt_witness :
    getPosts (fun _ => none) 0 {}
        { servInfo := [⟨"Outage", "down for maintenance"⟩],
          accounts := [{ userID := "u1", username := "u1", displayName := "U1" }] }
        "u1" =
      (outageSentinel "down for maintenance", {}) ∧
    getPosts (fun _ => none) 0 {}
        { servInfo := [⟨"Outage", "down for maintenance"⟩],
          accounts := [{ userID := "a1", username := "a1", displayName := "A1",
                         isAdmin := "TRUE" }] }
        "a1" =
      normalProjection (fun _ => none) 0 {}
        { servInfo := [⟨"Outage", "down for maintenance"⟩],
          accounts := [{ userID := "a1", username := "a1", displayName := "A1",
                         isAdmin := "TRUE" }] }
        "a1" "down for maintenance" :=
  ⟨((C10_outage_gate_admin_exempt (fun _ => none) 0 {}
      { servInfo := [⟨"Outage", "down for maintenance"⟩],
        accounts := [{ userID := "u1", username := "u1", displayName := "U1" }] }
      "u1" ⟨"Outage", "down for maintenance"⟩ [] rfl (by decide)).1
      (fun a ha => by
        have h2 : ({ userID := "u1", username := "u1", displayName := "U1" } :
            AccountRow) = a := by
          simpa [List.find?] using ha
        cases h2
        decide)).1,
   (C10_outage_gate_admin_exempt (fun _ => none) 0 {}
      { servInfo := [⟨"Outage", "down for maintenance"⟩],
        accounts := [{ userID := "a1", username := "a1", displayName := "A1",
                       isAdmin := "TRUE" }] }
      "a1" ⟨"Outage", "down for maintenance"⟩ [] rfl (by decide)).2
      { userID := "a1", username := "a1", displayName := "A1", isAdmin := "TRUE" }
      (by simp [List.find?]) (by decide)⟩

/-! ## Queue lemmas (claim C3) -/

namespace api

/-- The reachability invariant of the queue: the processing flag tracks the
in-flight dispatch, an idle queue is drained, and the dispatch log is the
completion log followed by the in-flight dispatch. -/
def QInv (s : QueueState) : Prop :=
  (s.isProcessingQueue = false → s.inFlight = [] ∧ s.queue = []) ∧
  (s.isProcessingQueue = true → s.inFlight.length = 1) ∧
  s.completed ++ s.inFlight = s.dispatched

theorem qinv_init : QInv qinit := by
  unfold QInv
  simp [qinit]

theorem qinv_step (s : QueueState) (e : QEvent) (h : QInv s) : QInv (qstep s e) := by
  obtain ⟨q, p, f, d, c⟩ := s
  unfold QInv at h ⊢
  obtain ⟨hidle, hone, hlog⟩ := h
  cases e with
  | enq x =>
    cases p with
    | true =>
      have hX : qstep ⟨q, true, f, d, c⟩ (.enq x) = ⟨q ++ [x], true, f, d, c⟩ := by
        simp [qstep, tryProcess]
      rw [hX]
      exact ⟨fun hp => Bool.noConfusion hp, fun _ => hone rfl, hlog⟩
    | false =>
      obtain ⟨hf0, hq0⟩ := hidle rfl
      subst hf0
      subst hq0
      have hcd : c = d := by simpa using hlog
      have hX : qstep ⟨[], false, [], d, c⟩ (.enq x) = ⟨[], true, [x], d ++ [x], c⟩ := by
        simp [qstep, tryProcess]
      rw [hX]
      exact ⟨fun hp => Bool.noConfusion hp, fun _ => rfl, by rw [hcd]⟩
  | settle =>
    cases f with
    | nil =>
      have hX : qstep ⟨q, p, [], d, c⟩ .settle = ⟨q, p, [], d, c⟩ := by
        simp [qstep]
      rw [hX]
      exact ⟨hidle, hone, hlog⟩
    | cons x restf =>
      cases p with
      | false => exact absurd (hidle rfl).1 (by simp)
      | true =>
        have hrest : restf = [] := by simpa using hone rfl
        subst hrest
        have hcd : c ++ [x] = d := by simpa using hlog
        cases q with
        | nil =>
          have hX : qstep ⟨[], true, [x], d, c⟩ .settle = ⟨[], false, [], d, c ++ [x]⟩ := by
            simp [qstep, tryProcess]
          rw [hX]
          exact ⟨fun _ => ⟨rfl, rfl⟩, fun hp => Bool.noConfusion hp, by simpa using hcd⟩
        | cons y restq =>
          have hX : qstep ⟨y :: restq, true, [x], d, c⟩ .settle =
              ⟨restq, true, [y], d ++ [y], c ++ [x]⟩ := by
            simp [qstep, tryProcess]
          rw [hX]
          exact ⟨fun hp => Bool.noConfusion hp, fun _ => rfl, by rw [← hcd]⟩

theorem qinv_run (evs : List QEvent) : QInv (qrun evs) := by
  suffices h : ∀ (l : List QEvent) (s : QueueState), QInv s → QInv (l.foldl qstep s) by
    exact h evs qinit qinv_init
  intro l
  induction l with
  | nil => intro s hs; exact hs
  | cons e t ih => intro s hs; exact ih _ (qinv_step s e hs)

theorem tryProcess_order (s : QueueState) :
    (tryProcess s).dispatched ++ (tryProcess s).queue = s.dispatched ++ s.queue := by
  by_cases hp : s.isProcessingQueue
  · simp [tryProcess, hp]
  · rcases hq : s.queue with _ | ⟨c, rest⟩ <;> simp [tryProcess, hp, hq]

theorem qstep_order (s : QueueState) (e : QEvent) :
    (qstep s e).dispatched ++ (qstep s e).queue =
      s.dispatched ++ s.queue ++ enqueuedOf [e] := by
  cases e with
  | enq c =>
    have := tryProcess_order { s with queue := s.queue ++ [c] }
    simp only [qstep]
    rw [this]
    simp [enqueuedOf]
  | settle =>
    rcases hf : s.inFlight with _ | ⟨c, restf⟩
    · simp [qstep, hf, enqueuedOf]
    · simp only [qstep, hf]
      rw [tryProcess_order]
      simp [enqueuedOf]

theorem enqueuedOf_cons (e : QEvent) (t : List QEvent) :
    enqueuedOf (e :: t) = enqueuedOf [e] ++ enqueuedOf t := by
  cases e <;> simp [enqueuedOf]

theorem qrun_order (evs : List QEvent) :
    (qrun evs).dispatched ++ (qrun evs).queue = enqueuedOf evs := by
  suffices h : ∀ (l : List QEvent) (s : QueueState),
      (l.foldl qstep s).dispatched ++ (l.foldl qstep s).queue =
        s.dispatched ++ s.queue ++ enqueuedOf l by
    simpa [qinit] using h evs qinit
  intro l
  induction l with
  | nil => intro s; simp [enqueuedOf]
  | cons e t ih =>
    intro s
    simp only [List.foldl_cons]
    rw [ih (qstep s e), qstep_order, enqueuedOf_cons]
    cases e <;> simp [enqueuedOf]

theorem qrun_enqs (cmds : List Nat) (q : List Nat) (c : Nat) (D C : List Nat) :
    (cmds.map QEvent.enq).foldl qstep ⟨q, true, [c], D, C⟩ =
      ⟨q ++ cmds, true, [c], D, C⟩ := by
  induction cmds generalizing q with
  | nil => simp
  | cons a t ih =>
    simp only [List.map_cons, List.foldl_cons]
    have hstep : qstep ⟨q, true, [c], D, C⟩ (.enq a) = ⟨q ++ [a], true, [c], D, C⟩ := by
      simp [qstep, tryProcess]
    rw [hstep, ih]
    simp

theorem qrun_settles (q : List Nat) (c : Nat) (C : List Nat) :
    (List.replicate (q.length + 1) QEvent.settle).foldl qstep
        ⟨q, true, [c], C ++ [c], C⟩ =
      ⟨[], false, [], C ++ [c] ++ q, C ++ [c] ++ q⟩ := by
  induction q generalizing c C with
  | nil =>
    simp only [List.length_nil, List.replicate, List.foldl_cons, List.foldl_nil]
    simp [qstep, tryProcess]
  | cons a t ih =>
    have hstep : qstep ⟨a :: t, true, [c], C ++ [c], C⟩ .settle =
        ⟨t, true, [a], (C ++ [c]) ++ [a], C ++ [c]⟩ := by
      simp [qstep, tryProcess]
    have hrep : List.replicate ((a :: t).length + 1) QEvent.settle =
        QEvent.settle :: List.replicate (t.length + 1) QEvent.settle := rfl
    rw [hrep, List.foldl_cons, hstep, ih]
    simp

end api

/-! ## Retry lemmas (claim C7) -/

namespace api

theorem jsIncludes_of_isPrefixOf (hay needle : List Char)
    (h : needle.isPrefixOf hay = true) : jsIncludes hay needle = true := by
  unfold jsIncludes
  rw [List.any_eq_true]
  exact ⟨hay, (List.mem_tails hay hay).mpr (List.suffix_refl hay), h⟩

/-- Any non-OK HTTP status yields a retriable error: the thrown message
starts with the words `Network error: `, whose lower-casing contains
`network`. -/
theorem httpError_retriable (status : Nat) :
    retriableError "Error" ("Network error: " ++ toString status) = true := by
  unfold retriableError
  have hdata : (jsToLower ("Network error: " ++ toString status)).data =
      "network error: ".data ++ (toString status).data.map Char.toLower := by
    simp [jsToLower]
  rw [hdata]
  have hpre : ("network".data).isPrefixOf
      ("network error: ".data ++ (toString status).data.map Char.toLower) = true := by
    rw [List.isPrefixOf_iff_prefix]
    refine List.IsPrefix.trans ?_ (List.prefix_append _ _)
    decide
  rw [jsIncludes_of_isPrefixOf _ _ hpre]
  simp

theorem callAppsScript_no_retry_at_2 (attempt : Nat → WriteOutcome) :
    (callAppsScript attempt 2).2 = [] := by
  rw [callAppsScript]
  rcases herr : errorOf (attempt 2) with _ | p
  · simp
  · obtain ⟨n, m⟩ := p
    dsimp only
    rw [dif_neg (by omega : ¬ (2 < 2 ∧ retriableError n m = true))]

/-- The retry step: a retriable error below the bound re-invokes the call
with `retryCount + 1` after the exponential backoff delay. -/
theorem callAppsScript_retry_step (attempt : Nat → WriteOutcome) (k : Nat)
    (n m : String) (hk : k < 2) (herr : errorOf (attempt k) = some (n, m))
    (hret : retriableError n m = true) :
    callAppsScript attempt k =
      ((callAppsScript attempt (k + 1)).1,
       retryDelayMs k :: (callAppsScript attempt (k + 1)).2) := by
  rw [callAppsScript, herr]
  dsimp only
  rw [dif_pos ⟨hk, hret⟩]

/-- The surface step: a non-retriable error (or any error at the bound) is
surfaced as-is with no further attempt. -/
theorem callAppsScript_surface_step (attempt : Nat → WriteOutcome) (k : Nat)
    (n m : String) (herr : errorOf (attempt k) = some (n, m))
    (h : ¬ (k < 2 ∧ retriableError n m = true)) :
    callAppsScript attempt k = (.err n m, []) := by
  rw [callAppsScript, herr]
  dsimp only
  rw [dif_neg h]

theorem callAppsScript_delays_at_1 (attempt : Nat → WriteOutcome) :
    (callAppsScript attempt 1).2 = [] ∨ (callAppsScript attempt 1).2 = [2000] := by
  rw [callAppsScript]
  rcases herr : errorOf (attempt 1) with _ | ⟨n, m⟩
  · left; rfl
  · dsimp only
    by_cases h : (1 : Nat) < 2 ∧ retriableError n m = true
    · right
      rw [dif_pos h]
      simp [retryDelayMs, callAppsScript_no_retry_at_2]
    · left
      rw [dif_neg h]

/-- Through all outcomes, a call started at `retryCount = 0` sleeps one of
the backoff schedules `[]`, `[1000]`, `[1000, 2000]` — at most 2 retries,
exponential delays. -/
theorem callAppsScript_delays_at_0 (attempt : Nat → WriteOutcome) :
    (callAppsScript attempt 0).2 = [] ∨ (callAppsScript attempt 0).2 = [1000] ∨
      (callAppsScript attempt 0).2 = [1000, 2000] := by
  rw [callAppsScript]
  rcases herr : errorOf (attempt 0) with _ | ⟨n, m⟩
  · left; rfl
  · dsimp only
    by_cases h : (0 : Nat) < 2 ∧ retriableError n m = true
    · rw [dif_pos h]
      rcases callAppsScript_delays_at_1 attempt with h1 | h1 <;>
        simp [retryDelayMs, h1]
    · left
      rw [dif_neg h]

end api

/-- C7 counterexample: a structured failure response (explicit error status
in the payload) whose message happens to contain the word `network` IS
retried — the first attempt's structured error is followed by a retry that
succeeds, so the caller sees success and a 1s backoff was slept, not the
immediately-surfaced structured error the claim requires. -/
theorem C7_structured_error_retried_counterexample :
    api.callAppsScript
        (fun k => if k = 0 then .structuredError "network configuration rejected"
                  else .success) 0 =
      (.ok, [1000]) := by
  have h1 : api.callAppsScript
      (fun k => if k = 0 then .structuredError "network configuration rejected"
                else .success) 1 = (.ok, []) := by
    rw [api.callAppsScript]
    norm_num [api.errorOf]
  rw [api.callAppsScript]
  norm_num [api.errorOf, h1, api.retryDelayMs]
  decide

/-- C7 (amended): every dispatched write runs under the 30s abort timer and
is retried at most twice, with exponential backoff 1s then 2s; an attempt's
error is retried (below the bound) iff it is an abort, or its message
contains `HTTP 5`, or its lower-cased message contains `network` — which
covers timeouts and every non-OK HTTP status; a structured failure response
is surfaced immediately without retry iff its message matches none of those
patterns (not regardless of its content). -/
theorem C7_write_retry_policy :
    api.WRITE_TIMEOUT_MS = 30000 ∧
    (∀ k, api.retryDelayMs k = 1000 * 2 ^ k) ∧
    (∀ attempt, (api.callAppsScript attempt 0).2 = [] ∨
        (api.callAppsScript attempt 0).2 = [1000] ∨
        (api.callAppsScript attempt 0).2 = [1000, 2000]) ∧
    (∀ (attempt : Nat → api.WriteOutcome) (k : Nat) (n m : String),
        k < 2 → api.errorOf (attempt k) = some (n, m) →
        api.retriableError n m = true →
        api.callAppsScript attempt k =
          ((api.callAppsScript attempt (k + 1)).1,
           api.retryDelayMs k :: (api.callAppsScript attempt (k + 1)).2)) ∧
    (∀ (attempt : Nat → api.WriteOutcome) (k : Nat) (n m : String),
        api.errorOf (attempt k) = some (n, m) →
        api.retriableError n m = false →
        api.callAppsScript attempt k = (.err n m, [])) ∧
    (∀ m, api.retriableError "AbortError" m = true) ∧
    (∀ status : Nat,
        api.retriableError "Error" ("Network error: " ++ toString status) = true) ∧
    (∀ m, api.retriableError "Error" m =
        (jsIncludes m.data ("HTTP 5".data) || jsIncludes (jsToLower m).data ("network".data))) := by
  refine ⟨rfl, fun _ => rfl, api.callAppsScript_delays_at_0, ?_, ?_, ?_, api.httpError_retriable, ?_⟩
  · intro attempt k n m hk herr hret
    exact api.callAppsScript_retry_step attempt k n m hk herr hret
  · intro attempt k n m herr hret
    exact api.callAppsScript_surface_step attempt k n m herr (by simp [hret])
  · intro m
    simp [api.retriableError]
  · intro m
    simp [api.retriableError]

/-- Witness for C7: a timed-out first attempt is retried with a 1s backoff;
a structured business rejection (`user is banned`, no retriable substring)
is surfaced immediately with no backoff. -/
theorem C7_write_retry_policy_witness :
    api.callAppsScript (fun _ => .timeout) 0 =
      ((api.callAppsScript (fun _ => .timeout) 1).1,
       api.retryDelayMs 0 :: (api.callAppsScript (fun _ => .timeout) 1).2) ∧
    api.callAppsScript (fun _ => .structuredError "user is banned") 0 =
      (.err "Error" "user is banned", []) :=
  ⟨C7_write_retry_policy.2.2.2.1 (fun _ => .timeout) 0 "AbortError"
      "The operation was aborted." (by omega) rfl (by decide),
   C7_write_retry_policy.2.2.2.2.1 (fun _ => .structuredError "user is banned") 0
      "Error" "user is banned" rfl (by decide)⟩

/-- C3: At most one write command dispatched through the write queue is in
flight at any time: for every event trace, the reachable queue state has at
most one in-flight dispatch, the dispatch log is the completion log followed
by the in-flight dispatch (so each dispatch settles before the next begins),
and dispatches happen in the strict FIFO order of enqueueing; moreover, for
every sequence of N enqueues followed by the N settlements, the queue
performs exactly those N dispatches, in enqueue order, all completed. -/
theorem C3_queue_at_most_one_in_flight :
    (∀ evs : List api.QEvent,
        (api.qrun evs).inFlight.length ≤ 1 ∧
        (api.qrun evs).completed ++ (api.qrun evs).inFlight = (api.qrun evs).dispatched ∧
        (api.qrun evs).dispatched ++ (api.qrun evs).queue = api.enqueuedOf evs) ∧
    (∀ cmds : List Nat,
        (api.qrun (cmds.map .enq ++ List.replicate cmds.length .settle)).dispatched
            = cmds ∧
        (api.qrun (cmds.map .enq ++ List.replicate cmds.length .settle)).completed
            = cmds ∧
        (api.qrun (cmds.map .enq ++ List.replicate cmds.length .settle)).inFlight
            = []) := by
  constructor
  · intro evs
    obtain ⟨hidle, hone, hlog⟩ := api.qinv_run evs
    refine ⟨?_, hlog, api.qrun_order evs⟩
    by_cases hp : (api.qrun evs).isProcessingQueue
    · rw [hone hp]
    · rw [(hidle (by simpa using hp)).1]
      simp
  · intro cmds
    cases cmds with
    | nil => refine ⟨rfl, rfl, rfl⟩
    | cons c cs =>
      have hfirst : api.qstep api.qinit (.enq c) = ⟨[], true, [c], [c], []⟩ := by
        simp [api.qstep, api.qinit, api.tryProcess]
      have : api.qrun ((c :: cs).map .enq ++ List.replicate (c :: cs).length .settle) =
          ⟨[], false, [], [] ++ [c] ++ cs, [] ++ [c] ++ cs⟩ := by
        unfold api.qrun
        rw [List.foldl_append]
        simp only [List.map_cons, List.foldl_cons]
        rw [hfirst]
        have henqs := api.qrun_enqs cs [] c [c] []
        simp only [List.nil_append] at henqs
        rw [henqs]
        have hc : [c] = ([] : List Nat) ++ [c] := by simp
        simp only [List.length_cons]
        rw [hc]
        exact api.qrun_settles cs c []
      rw [this]
      refine ⟨by simp, by simp, rfl⟩

end Kangaroo
